import Mathlib

/-!
Verification of the woff-lib WOFF2 codec (TypeScript sources under `src/`).

The development shallowly embeds the code: byte arrays (`Uint8Array`) become
`List Nat` whose elements are bytes, JavaScript 32-bit operator semantics are
made explicit through `toUint32` / `toInt32` style conversions, fallible
readers return `Option` / `Except`, and exceptions thrown by the decoder
become values of `DecodeErr`.
-/

namespace Woff

/-! ## JavaScript numeric semantics -/

/-- JS `ToUint32` (the `>>> 0` coercion). -/
def toUint32 (i : Int) : Nat := (i % 4294967296).toNat

/-- JS `ToInt32` (applied by the 32-bit operators `| & << >>`). -/
def toInt32 (i : Int) : Int :=
  let u := i % 4294967296
  if u < 2147483648 then u else u - 4294967296

/-- JS `ToUint8` (storing into a `Uint8Array`). -/
def toUint8 (i : Int) : Nat := (i % 256).toNat

/-- JS `ToUint16` (storing via `DataView.setUint16` / `setInt16`). -/
def toUint16 (i : Int) : Nat := (i % 65536).toNat

/-- JS bitwise `a & b` on numbers (32-bit, signed result). -/
def jsAnd (a b : Int) : Int := toInt32 (Int.ofNat (toUint32 a &&& toUint32 b))

/-- JS bitwise `a | b` on numbers (32-bit, signed result). -/
def jsOr (a b : Int) : Int := toInt32 (Int.ofNat (toUint32 a ||| toUint32 b))

/-- JS `a << s` for a shift amount already reduced mod 32. -/
def jsShl (a : Int) (s : Nat) : Int := toInt32 (toInt32 a * 2 ^ (s % 32))

/-- JS arithmetic `a >> s` (sign-propagating, i.e. flooring division). -/
def jsShr (a : Int) (s : Nat) : Int := Int.fdiv (toInt32 a) (2 ^ (s % 32))

/-! ## Byte-list primitives -/

/-- Read one byte of a byte list (`Uint8Array` indexing; out of range reads
behave like the `?? 0` / `undefined`-as-zero paths of the decoder). -/
def byteAt (data : List Nat) (i : Nat) : Nat := data.getD i 0

/-- Big-endian `u16` view of two bytes (`(u8[i] << 8) | u8[i+1]`; byte values
are < 256 so the JS 32-bit operators cannot overflow and the expression is
plain arithmetic). -/
def getU16 (data : List Nat) (i : Nat) : Nat :=
  256 * byteAt data i + byteAt data (i + 1)

/-- Big-endian signed 16-bit view, as in `readInt16BE` / `Buffer.readS16`:
`val - 0x10000` when bit 15 is set. -/
def getS16 (data : List Nat) (i : Nat) : Int :=
  let val := getU16 data i
  if val &&& 32768 ≠ 0 then (val : Int) - 65536 else (val : Int)

/-- Big-endian `u32` view of four bytes. -/
def getU32 (data : List Nat) (i : Nat) : Nat :=
  16777216 * byteAt data i + 65536 * byteAt data (i + 1) +
    256 * byteAt data (i + 2) + byteAt data (i + 3)

/-- Bytes emitted by `writeUint16BE` / `WriteBuffer.writeU16` for a `u16`. -/
def u16Bytes (v : Nat) : List Nat := [v % 65536 / 256, v % 256]

/-- Bytes emitted by `writeInt16BE` / `WriteBuffer.writeS16`
(`(value >> 8) & 0xff`, `value & 0xff` of the 16-bit two's complement). -/
def s16Bytes (v : Int) : List Nat := [toUint16 v / 256, toUint16 v % 256]

/-- Bytes stored by `DataView.setUint32` (big-endian). -/
def u32Bytes (v : Nat) : List Nat :=
  [v % 4294967296 / 16777216, v % 16777216 / 65536, v % 65536 / 256, v % 256]

/-- `(n + 3) & ~3` from `shared/checksum.ts`. -/
def pad4 (n : Nat) : Nat := n + (4 - n % 4) % 4

theorem pad4_eq (n : Nat) : pad4 n = (n + 3) - (n + 3) % 4 := by
  unfold pad4; omega

@[simp] theorem byteAt_nil (i : Nat) : byteAt [] i = 0 := by
  cases i <;> rfl

@[simp] theorem byteAt_cons_zero (a : Nat) (rest : List Nat) :
    byteAt (a :: rest) 0 = a := rfl

@[simp] theorem byteAt_cons_succ (a : Nat) (rest : List Nat) (i : Nat) :
    byteAt (a :: rest) (i + 1) = byteAt rest i := rfl

theorem byteAt_append_right (xs ys : List Nat) (i : Nat) :
    byteAt (xs ++ ys) (xs.length + i) = byteAt ys i := by
  induction xs with
  | nil => simp
  | cons a rest ih => simpa [List.length_cons, Nat.succ_add] using ih

theorem byteAt_append_left (xs ys : List Nat) (i : Nat) (h : i < xs.length) :
    byteAt (xs ++ ys) i = byteAt xs i := by
  induction xs generalizing i with
  | nil => simp at h
  | cons a rest ih =>
    cases i with
    | zero => rfl
    | succ j => simpa using ih j (by simpa using h)

theorem byteAt_lt_256 (data : List Nat) (i : Nat)
    (hb : ∀ x ∈ data, x < 256) : byteAt data i < 256 := by
  unfold byteAt
  cases h : data[i]? with
  | none => simp [List.getD, h]
  | some x =>
    simp [List.getD, h]
    exact hb x (by
      have hlt : i < data.length := by
        by_contra hc
        rw [List.getElem?_eq_none (by omega)] at h
        cases h
      rw [List.getElem?_eq_getElem hlt] at h
      cases h
      exact List.getElem_mem hlt)

/-! ## The bounds-checked reader (`woff2/decode/buffer.ts`, class `Buffer`) -/

structure Buffer where
  u8 : List Nat
  pos : Nat

namespace Buffer

def length (b : Buffer) : Nat := b.u8.length

def remaining (b : Buffer) : Nat := b.u8.length - b.pos

/-- `skip(n)`: fails when `pos + n > length` or `pos + n < pos`. -/
def skip (b : Buffer) (n : Int) : Bool × Buffer :=
  if (b.pos : Int) + n > (b.u8.length : Int) ∨ (b.pos : Int) + n < (b.pos : Int) then
    (false, b)
  else
    (true, { b with pos := ((b.pos : Int) + n).toNat })

/-- `seek(offset)`: fails when `offset > length` or `offset < 0`. -/
def seek (b : Buffer) (offset : Int) : Bool × Buffer :=
  if offset > (b.u8.length : Int) ∨ offset < 0 then
    (false, b)
  else
    (true, { b with pos := offset.toNat })

def readU8 (b : Buffer) : Option Nat × Buffer :=
  if b.pos + 1 > b.u8.length then (none, b)
  else (some (byteAt b.u8 b.pos), { b with pos := b.pos + 1 })

def readU16 (b : Buffer) : Option Nat × Buffer :=
  if b.pos + 2 > b.u8.length then (none, b)
  else (some (getU16 b.u8 b.pos), { b with pos := b.pos + 2 })

def readS16 (b : Buffer) : Option Int × Buffer :=
  if b.pos + 2 > b.u8.length then (none, b)
  else (some (getS16 b.u8 b.pos), { b with pos := b.pos + 2 })

def readU32 (b : Buffer) : Option Nat × Buffer :=
  if b.pos + 4 > b.u8.length then (none, b)
  else (some (getU32 b.u8 b.pos), { b with pos := b.pos + 4 })

/-- `readBytes(n)`: fails when `pos + n > length` or `n < 0`. -/
def readBytes (b : Buffer) (n : Int) : Option (List Nat) × Buffer :=
  if (b.pos : Int) + n > (b.u8.length : Int) ∨ n < 0 then (none, b)
  else (some ((b.u8.drop b.pos).take n.toNat), { b with pos := b.pos + n.toNat })

theorem readU8_eval (u8 : List Nat) (pos : Nat) (h : pos + 1 ≤ u8.length) :
    readU8 ⟨u8, pos⟩ = (some (byteAt u8 pos), ⟨u8, pos + 1⟩) := by
  unfold readU8; rw [if_neg (by simpa using h)]

theorem readU16_eval (u8 : List Nat) (pos : Nat) (h : pos + 2 ≤ u8.length) :
    readU16 ⟨u8, pos⟩ = (some (getU16 u8 pos), ⟨u8, pos + 2⟩) := by
  unfold readU16; rw [if_neg (by simpa using h)]

end Buffer

end Woff

namespace Woff

/-! ## C10: totality of the bounds-checked reader -/

/-- **C10.** Every read method of `Buffer` returns `none` (instead of reading
past the end) exactly when the read would cross `length`, and leaves the
offset unchanged in that case; `skip` and `seek` return `false` and leave the
offset unchanged whenever the target position lies outside the buffer. -/
theorem buffer_reader_totality (b : Buffer) (n : Int) :
    ((Buffer.readU8 b).1 = none ↔ b.u8.length < b.pos + 1) ∧
    ((Buffer.readU8 b).1 = none → (Buffer.readU8 b).2 = b) ∧
    ((Buffer.readU16 b).1 = none ↔ b.u8.length < b.pos + 2) ∧
    ((Buffer.readU16 b).1 = none → (Buffer.readU16 b).2 = b) ∧
    ((Buffer.readS16 b).1 = none ↔ b.u8.length < b.pos + 2) ∧
    ((Buffer.readS16 b).1 = none → (Buffer.readS16 b).2 = b) ∧
    ((Buffer.readU32 b).1 = none ↔ b.u8.length < b.pos + 4) ∧
    ((Buffer.readU32 b).1 = none → (Buffer.readU32 b).2 = b) ∧
    ((Buffer.readBytes b n).1 = none ↔
      ((b.u8.length : Int) < (b.pos : Int) + n ∨ n < 0)) ∧
    ((Buffer.readBytes b n).1 = none → (Buffer.readBytes b n).2 = b) ∧
    (((b.u8.length : Int) < (b.pos : Int) + n ∨ (b.pos : Int) + n < 0) →
      Buffer.skip b n = (false, b)) ∧
    ((n > (b.u8.length : Int) ∨ n < 0) → Buffer.seek b n = (false, b)) := by
  unfold Buffer.readU8 Buffer.readU16 Buffer.readS16 Buffer.readU32
    Buffer.readBytes Buffer.skip Buffer.seek
  refine ⟨?_, ?_, ?_, ?_, ?_, ?_, ?_, ?_, ?_, ?_, ?_, ?_⟩ <;>
    split <;> simp_all <;> omega

/-- Witness for C10 at a concrete buffer. -/
theorem buffer_reader_totality_witness :
    Buffer.skip ⟨[7], 0⟩ 2 = (false, ⟨[7], 0⟩) := by
  have h := buffer_reader_totality ⟨[7], 0⟩ 2
  exact h.2.2.2.2.2.2.2.2.2.2.1 (by decide)

/-! ## Variable-length integer codecs
(`shared/known-tags.ts` readers, `WriteBuffer` writers in
`woff2/encode/transform-hmtx.ts`) -/

/-- `WriteBuffer.writeU8` (stores `value` into a `Uint8Array`). -/
def writeU8L (out : List Nat) (value : Int) : List Nat := out ++ [toUint8 value]

/-- `WriteBuffer.writeU16` (`DataView.setUint16`, big-endian). -/
def writeU16L (out : List Nat) (value : Int) : List Nat :=
  out ++ [toUint16 value / 256, toUint16 value % 256]

/-- `read255UShort` from `shared/known-tags.ts`. -/
def read255UShort (b : Buffer) : Option Nat × Buffer :=
  match Buffer.readU8 b with
  | (none, b1) => (none, b1)
  | (some code, b1) =>
    if code = 253 then Buffer.readU16 b1
    else if code = 255 then
      match Buffer.readU8 b1 with
      | (none, b2) => (none, b2)
      | (some next, b2) => (some (253 + next), b2)
    else if code = 254 then
      match Buffer.readU8 b1 with
      | (none, b2) => (none, b2)
      | (some next, b2) => (some (506 + next), b2)
    else (some code, b1)

/-- The loop of `readBase128`; `isFirst` records `i === 0`, the accumulator
carries the JS 32-bit signed value of `result`. -/
def readBase128Loop : Nat → Bool → Int → Buffer → Option Int × Buffer
  | 0, _, _, b => (none, b)
  | n + 1, isFirst, result, b =>
    match Buffer.readU8 b with
    | (none, b1) => (none, b1)
    | (some code, b1) =>
      if isFirst ∧ code = 128 then (none, b1)
      else if jsAnd result 4261412864 ≠ 0 then (none, b1)
      else
        let result1 := jsOr (jsShl result 7) (jsAnd (Int.ofNat code) 127)
        if code &&& 128 = 0 then (some result1, b1)
        else readBase128Loop n false result1 b1

/-- `readBase128` from `shared/known-tags.ts` (five 7-bit groups, leading-zero
and 32-bit-overflow rejection; the accumulation `(result << 7) | (code & 0x7f)`
uses the JS 32-bit signed operators). -/
def readBase128 (b : Buffer) : Option Int × Buffer := readBase128Loop 5 true 0 b

/-- `WriteBuffer.write255UShort`. -/
def write255UShort (out : List Nat) (value : Int) : List Nat :=
  if value < 253 then writeU8L out value
  else if value < 506 then writeU8L (writeU8L out 255) (value - 253)
  else if value < 762 then writeU8L (writeU8L out 254) (value - 506)
  else writeU16L (writeU8L out 253) value

/-- `WriteBuffer.writeBase128` (the shifts and masks are the JS 32-bit
operators, which coerce `value` through `ToInt32` first). -/
def writeBase128 (out : List Nat) (value : Int) : List Nat :=
  if value < 128 then writeU8L out value
  else if value < 16384 then
    writeU8L (writeU8L out (jsOr 128 (jsShr value 7))) (jsAnd value 127)
  else if value < 2097152 then
    writeU8L (writeU8L (writeU8L out
      (jsOr 128 (jsShr value 14)))
      (jsOr 128 (jsAnd (jsShr value 7) 127)))
      (jsAnd value 127)
  else if value < 268435456 then
    writeU8L (writeU8L (writeU8L (writeU8L out
      (jsOr 128 (jsShr value 21)))
      (jsOr 128 (jsAnd (jsShr value 14) 127)))
      (jsOr 128 (jsAnd (jsShr value 7) 127)))
      (jsAnd value 127)
  else
    writeU8L (writeU8L (writeU8L (writeU8L (writeU8L out
      (jsOr 128 (jsShr value 28)))
      (jsOr 128 (jsAnd (jsShr value 21) 127)))
      (jsOr 128 (jsAnd (jsShr value 14) 127)))
      (jsOr 128 (jsAnd (jsShr value 7) 127)))
      (jsAnd value 127)

/-! ## C3: the UIntBase128 round-trip fails above `2^31 - 1` -/

/-- **C3.** The claimed round-trip `readBase128 ∘ writeBase128 = id` on all of
`[0, 0xFFFFFFFF]` fails: at `v = 0x80000000` the writer's JS shifts operate on
`ToInt32(v) = -2^31`, sign-extension makes the first emitted byte `0xF8`
instead of `0x88`, and `readBase128` then rejects the five bytes with its
32-bit-overflow check, returning `null` rather than `v`. -/
theorem base128_roundtrip_fails_at_2pow31 :
    writeBase128 [] 2147483648 = [248, 128, 128, 128, 0] ∧
    (readBase128 ⟨writeBase128 [] 2147483648, 0⟩).1 = none := by decide

/-- Supporting fact: the `255UShort` half of C3 does hold, with the minimal
encoded lengths (1 byte below 253, 2 bytes below 762, 3 bytes otherwise). -/
theorem write255UShort_roundtrip (v : Nat) (hv : v < 65536) :
    (read255UShort ⟨write255UShort [] (v : Int), 0⟩).1 = some v ∧
    (write255UShort [] (v : Int)).length =
      (if v < 253 then 1 else if v < 762 then 2 else 3) := by
  by_cases h1 : v < 253
  · have e : write255UShort [] (v : Int) = [v] := by
      unfold write255UShort writeU8L
      rw [if_pos (by omega)]
      simp only [List.nil_append, List.cons.injEq, and_true]
      unfold toUint8; omega
    rw [e]
    refine ⟨?_, by simp [h1]⟩
    unfold read255UShort
    rw [Buffer.readU8_eval _ _ (by simp)]
    simp only [byteAt_cons_zero]
    rw [if_neg (show ¬(v = 253) by omega), if_neg (show ¬(v = 255) by omega),
      if_neg (show ¬(v = 254) by omega)]
  · by_cases h2 : v < 506
    · have e : write255UShort [] (v : Int) = [255, v - 253] := by
        unfold write255UShort writeU8L
        rw [if_neg (by omega), if_pos (by omega)]
        simp only [List.nil_append, List.cons_append, List.nil_append,
          List.cons.injEq, true_and, and_true]
        constructor
        · unfold toUint8; decide
        · unfold toUint8; omega
      rw [e]
      refine ⟨?_, by rw [if_neg h1, if_pos (show v < 762 by omega)]; rfl⟩
      unfold read255UShort
      rw [Buffer.readU8_eval _ _ (by simp)]
      simp only [byteAt_cons_zero]
      rw [if_neg (show ¬(255 = 253) by decide), if_true]
      rw [Buffer.readU8_eval _ _ (by simp)]
      simp only [byteAt_cons_succ, byteAt_cons_zero]
      simp only [Prod.fst, Option.some.injEq]
      omega
    · by_cases h3 : v < 762
      · have e : write255UShort [] (v : Int) = [254, v - 506] := by
          unfold write255UShort writeU8L
          rw [if_neg (by omega), if_neg (by omega), if_pos (by omega)]
          simp only [List.nil_append, List.cons_append, List.nil_append,
            List.cons.injEq, true_and, and_true]
          constructor
          · unfold toUint8; decide
          · unfold toUint8; omega
        rw [e]
        refine ⟨?_, by rw [if_neg h1, if_pos h3]; rfl⟩
        unfold read255UShort
        rw [Buffer.readU8_eval _ _ (by simp)]
        simp only [byteAt_cons_zero]
        rw [if_neg (show ¬(254 = 253) by decide),
          if_neg (show ¬(254 = 255) by decide), if_true]
        rw [Buffer.readU8_eval _ _ (by simp)]
        simp only [byteAt_cons_succ, byteAt_cons_zero]
        simp only [Prod.fst, Option.some.injEq]
        omega
      · have e : write255UShort [] (v : Int) = [253, v / 256, v % 256] := by
          unfold write255UShort writeU8L writeU16L
          rw [if_neg (by omega), if_neg (by omega), if_neg (by omega)]
          simp only [List.nil_append, List.cons_append, List.nil_append,
            List.cons.injEq, true_and]
          refine ⟨by unfold toUint8; decide, ?_, ?_, trivial⟩ <;>
            · unfold toUint16; omega
        rw [e]
        refine ⟨?_, by rw [if_neg h1, if_neg h3]; rfl⟩
        unfold read255UShort
        rw [Buffer.readU8_eval _ _ (by simp)]
        simp only [byteAt_cons_zero]
        rw [if_true]
        rw [Buffer.readU16_eval _ _ (by simp)]
        simp only [Prod.fst, Option.some.injEq]
        unfold getU16
        simp only [byteAt_cons_succ, byteAt_cons_zero]
        omega

/-- Witness for the supporting `255UShort` fact. -/
theorem write255UShort_roundtrip_witness :
    (read255UShort ⟨write255UShort [] ((600 : Nat) : Int), 0⟩).1 = some 600 :=
  (write255UShort_roundtrip 600 (by decide)).1

/-! ## Tags and constants (`shared/known-tags.ts`) -/

def KNOWN_TAGS : List Nat :=
  [0x636d6170, 0x68656164, 0x68686561, 0x686d7478, 0x6d617870, 0x6e616d65,
   0x4f532f32, 0x706f7374, 0x63767420, 0x6670676d, 0x676c7966, 0x6c6f6361,
   0x70726570, 0x43464620, 0x564f5247, 0x45424454, 0x45424c43, 0x67617370,
   0x68646d78, 0x6b65726e, 0x4c545348, 0x50434c54, 0x56444d58, 0x76686561,
   0x766d7478, 0x42415345, 0x47444546, 0x47504f53, 0x47535542, 0x45425343,
   0x4a535446, 0x4d415448, 0x43424454, 0x43424c43, 0x434f4c52, 0x4350414c,
   0x53564720, 0x73626978, 0x61636e74, 0x61766172, 0x62646174, 0x626c6f63,
   0x62736c6e, 0x63766172, 0x66647363, 0x66656174, 0x666d7478, 0x66766172,
   0x67766172, 0x68737479, 0x6a757374, 0x6c636172, 0x6d6f7274, 0x6d6f7278,
   0x6f706264, 0x70726f70, 0x7472616b, 0x5a617066, 0x53696c66, 0x476c6174,
   0x476c6f63, 0x46656174, 0x53696c6c]

def TAG_GLYF : Nat := 0x676c7966
def TAG_LOCA : Nat := 0x6c6f6361
def TAG_HMTX : Nat := 0x686d7478
def TAG_HHEA : Nat := 0x68686561
def TAG_HEAD : Nat := 0x68656164
def TAG_DSIG : Nat := 0x44534947
def TTC_FLAVOR : Nat := 0x74746366
def WOFF2_SIGNATURE : Nat := 0x774f4632
def WOFF2_FLAGS_TRANSFORM : Nat := 32

/-! ## Decoder errors

The decode path of `woff2/decode/decode.ts` throws plain `Error`s; the
distinguishable failures (by throw site / message) become constructors. All
failures of `readHeader` surface as the single `'Failed to read WOFF2 header'`
throw in `woff2Decode`, which is `headerFailed` here. -/

inductive DecodeErr where
  | headerFailed
  | brotliFailed
  | streamOverflow
  | emptyGlyphHasBbox (glyphId : Nat)
  | compositeMissingBbox (glyphId : Nat)
  | unknownTransform
  deriving DecidableEq, Repr

/-! ## WOFF2 header and table directory (`woff2/decode/decode.ts`) -/

/-- In-memory directory entry (`interface Table`; the output-side bookkeeping
fields `dstOffset`, `dstLength`, `key` are initialized by later phases and are
not part of the directory parse). -/
structure Table where
  tag : Nat
  flags : Nat
  origLength : Int
  transformLength : Int
  srcOffset : Int
  srcLength : Int
  deriving DecidableEq, Repr

structure TtcFont where
  flavor : Nat
  tableIndices : List Nat
  deriving DecidableEq, Repr

structure Woff2Header where
  flavor : Nat
  headerVersion : Nat
  numTables : Nat
  compressedOffset : Nat
  compressedLength : Nat
  uncompressedSize : Int
  tables : List Table
  ttcFonts : List TtcFont
  deriving DecidableEq, Repr

/-- One iteration of the `readTableDirectory` loop. -/
def readDirectoryEntry (buf : Buffer) (srcOffset : Int) :
    Option (Table × Int × Buffer) :=
  match Buffer.readU8 buf with
  | (none, _) => none
  | (some flagByte, buf1) =>
    let tagStep : Option (Nat × Buffer) :=
      if flagByte &&& 0x3f = 0x3f then
        match Buffer.readU32 buf1 with
        | (none, b2) => if (0 : Nat) = 0 then none else some (0, b2)
        | (some tag, b2) => if tag = 0 then none else some (tag, b2)
      else
        some (KNOWN_TAGS.getD (flagByte &&& 0x3f) 0, buf1)
    match tagStep with
    | none => none
    | some (tag, buf2) =>
      let xformVersion := (flagByte >>> 6) &&& 0x03
      let flags0 : Nat :=
        if tag = TAG_GLYF ∨ tag = TAG_LOCA then
          if xformVersion = 0 then WOFF2_FLAGS_TRANSFORM else 0
        else if xformVersion ≠ 0 then WOFF2_FLAGS_TRANSFORM else 0
      let flags := flags0 ||| xformVersion
      match readBase128 buf2 with
      | (none, _) => none
      | (some origLength, buf3) =>
        if flags &&& WOFF2_FLAGS_TRANSFORM ≠ 0 then
          let (tlOpt, buf4) := readBase128 buf3
          let transformLength := tlOpt.getD 0
          if transformLength = 0 ∧ tag ≠ TAG_LOCA then none
          else if tag = TAG_LOCA ∧ transformLength ≠ 0 then none
          else
            some (⟨tag, flags, origLength, transformLength, srcOffset,
              transformLength⟩, srcOffset + transformLength, buf4)
        else
          some (⟨tag, flags, origLength, origLength, srcOffset, origLength⟩,
            srcOffset + origLength, buf3)

def readTableDirectoryLoop :
    Nat → Buffer → Int → List Table → Option (List Table × Buffer)
  | 0, buf, _, acc => some (acc.reverse, buf)
  | n + 1, buf, srcOffset, acc =>
    match readDirectoryEntry buf srcOffset with
    | none => none
    | some (t, srcOffset1, buf1) =>
      readTableDirectoryLoop n buf1 srcOffset1 (t :: acc)

/-- `readTableDirectory` from `woff2/decode/decode.ts`. -/
def readTableDirectory (buf : Buffer) (numTables : Nat) :
    Option (List Table × Buffer) :=
  readTableDirectoryLoop numTables buf 0 []

/-- The per-font index loop of the TTC branch of `readHeader`. -/
def readTtcIndices (numTableEntries : Nat) :
    Nat → Buffer → List Nat → Option (List Nat × Buffer)
  | 0, buf, acc => some (acc.reverse, buf)
  | n + 1, buf, acc =>
    match read255UShort buf with
    | (none, _) => none
    | (some idx, buf1) =>
      if idx ≥ numTableEntries then none
      else readTtcIndices numTableEntries n buf1 (idx :: acc)

/-- The per-font loop of the TTC branch of `readHeader`. -/
def readTtcFonts (numTableEntries : Nat) :
    Nat → Buffer → List TtcFont → Option (List TtcFont × Buffer)
  | 0, buf, acc => some (acc.reverse, buf)
  | n + 1, buf, acc =>
    match read255UShort buf with
    | (none, _) => none
    | (some fontNumTables, buf1) =>
      if fontNumTables = 0 then none
      else
        match Buffer.readU32 buf1 with
        | (none, _) => none
        | (some fontFlavor, buf2) =>
          match readTtcIndices numTableEntries fontNumTables buf2 [] with
          | none => none
          | some (tableIndices, buf3) =>
            readTtcFonts numTableEntries n buf3
              (⟨fontFlavor, tableIndices⟩ :: acc)

/-- `readHeader` from `woff2/decode/decode.ts` (returns `null` on every
malformed-header condition; the signature comparison `signature !==
WOFF2_SIGNATURE` also fails when `readU32` returned `null`). -/
def readHeader (buf0 : Buffer) (totalLength : Nat) : Option Woff2Header :=
  let (sigOpt, buf1) := Buffer.readU32 buf0
  if sigOpt ≠ some WOFF2_SIGNATURE then none
  else
    match Buffer.readU32 buf1 with
    | (none, _) => none
    | (some flavor, buf2) =>
      match Buffer.readU32 buf2 with
      | (none, _) => none
      | (some length, buf3) =>
        if length ≠ totalLength then none
        else
          match Buffer.readU16 buf3 with
          | (none, _) => none
          | (some numTables, buf4) =>
            if numTables = 0 then none
            else
              let (ok1, buf5) := Buffer.skip buf4 2
              if !ok1 then none
              else
                let (ok2, buf6) := Buffer.skip buf5 4
                if !ok2 then none
                else
                  match Buffer.readU32 buf6 with
                  | (none, _) => none
                  | (some compressedLength, buf7) =>
                    let (ok3, buf8) := Buffer.skip buf7 4
                    if !ok3 then none
                    else readHeaderMeta buf8 totalLength flavor numTables
                      compressedLength
where
  readHeaderMeta (buf8 : Buffer) (totalLength flavor numTables
      compressedLength : Nat) : Option Woff2Header :=
    match Buffer.readU32 buf8 with
    | (none, _) => none
    | (some metaOffset, buf9) =>
      match Buffer.readU32 buf9 with
      | (none, _) => none
      | (some metaLength, buf10) =>
        match Buffer.readU32 buf10 with
        | (none, _) => none
        | (some _metaOrigLength, buf11) =>
          if metaOffset ≠ 0 ∧
              (metaOffset ≥ totalLength ∨ totalLength - metaOffset < metaLength) then
            none
          else
            match Buffer.readU32 buf11 with
            | (none, _) => none
            | (some privOffset, buf12) =>
              match Buffer.readU32 buf12 with
              | (none, _) => none
              | (some privLength, buf13) =>
                if privOffset ≠ 0 ∧
                    (privOffset ≥ totalLength ∨
                      totalLength - privOffset < privLength) then
                  none
                else
                  match readTableDirectory buf13 numTables with
                  | none => none
                  | some (tables, buf14) =>
                    let lastTable := tables.getD (tables.length - 1)
                      ⟨0, 0, 0, 0, 0, 0⟩
                    let uncompressedSize :=
                      lastTable.srcOffset + lastTable.srcLength
                    if flavor = TTC_FLAVOR then
                      let (hvOpt, buf15) := Buffer.readU32 buf14
                      let headerVersion := hvOpt.getD 0
                      if headerVersion ≠ 0x00010000 ∧
                          headerVersion ≠ 0x00020000 then none
                      else
                        match read255UShort buf15 with
                        | (none, _) => none
                        | (some numFonts, buf16) =>
                          if numFonts = 0 then none
                          else
                            match readTtcFonts tables.length numFonts buf16 [] with
                            | none => none
                            | some (ttcFonts, buf17) =>
                              some ⟨flavor, headerVersion, numTables, buf17.pos,
                                compressedLength, uncompressedSize, tables,
                                ttcFonts⟩
                    else
                      some ⟨flavor, 0, numTables, buf14.pos, compressedLength,
                        uncompressedSize, tables, []⟩

/-- The header phase of `woff2Decode`: a `null` from `readHeader` becomes the
single generic `throw new Error('Failed to read WOFF2 header')`. -/
def woff2DecodeHeader (input : List Nat) : Except DecodeErr Woff2Header :=
  match readHeader ⟨input, 0⟩ input.length with
  | none => .error .headerFailed
  | some h => .ok h

/-! ## C7: signature rejection -/

/-- **C7 (amended).** Every input whose first four bytes are not the WOFF2
signature `0x774F4632` makes `woff2Decode` fail; the failure is the decoder's
single generic header-read error (`'Failed to read WOFF2 header'`), raised at
the signature comparison — the implementation does not carry a distinct
`BadSignature` error kind. -/
theorem woff2Decode_rejects_bad_signature (input : List Nat)
    (h : (Buffer.readU32 ⟨input, 0⟩).1 ≠ some WOFF2_SIGNATURE) :
    woff2DecodeHeader input = .error .headerFailed := by
  unfold woff2DecodeHeader readHeader
  rcases hr : Buffer.readU32 ⟨input, 0⟩ with ⟨sigOpt, buf1⟩
  rw [hr] at h
  simp only [] at h ⊢
  rw [if_pos h]

/-- Witness for C7: the single-byte input `[0x00]` of scenario S7. -/
theorem woff2Decode_rejects_bad_signature_witness :
    woff2DecodeHeader [0] = .error .headerFailed :=
  woff2Decode_rejects_bad_signature [0] (by decide)

/-- **C7 counterexample.** The claim's `BadSignature` error kind does not
exist as a distinct observable: the bad-signature input `[0x00]` and the
correctly-signed but truncated input `[0x77, 0x4F, 0x46, 0x32]` produce the
very same error value (the generic header failure), so `woff2Decode` does not
fail "with a BadSignature error" as opposed to any other header error. -/
theorem woff2Decode_signature_error_not_distinct :
    woff2DecodeHeader [0] = .error .headerFailed ∧
    woff2DecodeHeader [0x77, 0x4F, 0x46, 0x32] = .error .headerFailed := by
  constructor <;> rfl

/-! ## C8: DSIG elision in the encoder (`woff2/encode/encode.ts`) -/

/-- The tag list built by `woff2Encode`:
`[...font.tables.keys()].filter(tag => tag !== TAG_DSIG).sort((a, b) => a - b)`. -/
def encodeSortedTags (tags : List Nat) : List Nat :=
  (tags.filter (fun tag => tag ≠ TAG_DSIG)).mergeSort (fun a b => a ≤ b)

/-- **C8.** For every input table set, the sorted tag list that drives both
the WOFF2 directory and the payload concatenation of `woff2Encode` contains no
`DSIG` entry; since `woff2Decode` emits exactly the directory's tables, the
decoded font never contains a `DSIG` tag. -/
theorem encode_elides_dsig (tags : List Nat) :
    TAG_DSIG ∉ encodeSortedTags tags := by
  unfold encodeSortedTags
  intro h
  rw [List.mem_mergeSort] at h
  have := List.of_mem_filter h
  simp at this

/-- Witness for C8 on a concrete table set containing `DSIG`. -/
theorem encode_elides_dsig_witness :
    TAG_DSIG ∉ encodeSortedTags [TAG_GLYF, TAG_DSIG, TAG_HEAD] :=
  encode_elides_dsig [TAG_GLYF, TAG_DSIG, TAG_HEAD]

/-! ## Byte stores (`Uint8Array` element assignment / `DataView` setters) -/

def setByte (data : List Nat) (i v : Nat) : List Nat := data.set i (v % 256)

/-- `DataView.setUint16` (big-endian; the stored value is `ToUint16`). -/
def setU16 (data : List Nat) (i v : Nat) : List Nat :=
  setByte (setByte data i (v % 65536 / 256)) (i + 1) (v % 256)

/-- `DataView.setUint32` (big-endian; the stored value is `ToUint32`). -/
def setU32 (data : List Nat) (i v : Nat) : List Nat :=
  setByte (setByte (setByte (setByte data
    i (v % 4294967296 / 16777216))
    (i + 1) (v % 16777216 / 65536))
    (i + 2) (v % 65536 / 256))
    (i + 3) (v % 256)

@[simp] theorem length_setByte (data : List Nat) (i v : Nat) :
    (setByte data i v).length = data.length := by
  unfold setByte; simp

@[simp] theorem length_setU16 (data : List Nat) (i v : Nat) :
    (setU16 data i v).length = data.length := by
  unfold setU16; simp

@[simp] theorem length_setU32 (data : List Nat) (i v : Nat) :
    (setU32 data i v).length = data.length := by
  unfold setU32; simp

theorem byteAt_setByte_self (data : List Nat) (i v : Nat)
    (h : i < data.length) : byteAt (setByte data i v) i = v % 256 := by
  unfold byteAt setByte
  simp [List.getD, List.getElem?_set_self h]

theorem byteAt_setByte_ne (data : List Nat) (i j v : Nat) (h : i ≠ j) :
    byteAt (setByte data i v) j = byteAt data j := by
  unfold byteAt setByte
  simp [List.getD, List.getElem?_set_ne h]

theorem setByte_same (data : List Nat) (i v : Nat)
    (h : byteAt data i = v % 256) : setByte data i v = data := by
  unfold setByte
  by_cases hi : i < data.length
  · apply List.ext_getElem (by simp)
    intro n h1 h2
    by_cases hn : i = n
    · subst hn
      rw [List.getElem_set_self]
      unfold byteAt at h
      rw [List.getD_eq_getElem?_getD, List.getElem?_eq_getElem hi] at h
      simp at h
      omega
    · rw [List.getElem_set_ne hn]
  · rw [List.set_eq_of_length_le (by omega)]

/-! ## Checksums (`shared/checksum.ts`) and the `head` fixups -/

/-- The aligned-word loop of `computeChecksum`:
`sum = (sum + view.getUint32(i)) >>> 0` for `words` words starting at `off`. -/
def checksumWords (data : List Nat) : Nat → Nat → Nat → Nat
  | _, 0, sum => sum
  | off, n + 1, sum =>
    checksumWords data (off + 4) n ((sum + getU32 data off) % 4294967296)

/-- The remainder fold of `computeChecksum`: `last = (last << 8) | data[i]`
over the trailing 1–3 bytes. -/
def checksumTailFold (data : List Nat) : Nat → Nat → Nat → Nat
  | _, 0, last => last
  | pos, n + 1, last =>
    checksumTailFold data (pos + 1) n ((last <<< 8) ||| byteAt data pos)

/-- `computeChecksum` from `shared/checksum.ts`: sum of big-endian `u32` words
mod `2^32`; a non-aligned tail is left-shifted into the high bits (a JS 32-bit
shift, hence the `jsShl`) before being added. -/
def computeChecksum (data : List Nat) (offset length : Nat) : Nat :=
  let alignedEnd := offset + (length - length % 4)
  let sum := checksumWords data offset (length / 4) 0
  if offset + length > alignedEnd then
    let last := checksumTailFold data alignedEnd (offset + length - alignedEnd) 0
    toUint32 ((sum : Int) +
      jsShl (last : Int) ((4 - (offset + length - alignedEnd)) * 8))
  else sum

/-- The `head` branch of `woff2Encode` (lines 120–136 of
`woff2/encode/encode.ts`): copy the table and set bit 11 of the `flags` field
at offset 16. -/
def encodeHeadTable (head : List Nat) : List Nat :=
  setU16 head 16 (getU16 head 16 ||| 2048)

/-- The `head` special case of the untransformed-table copy in
`reconstructFont` (decode.ts lines 571–576): zero `checkSumAdjustment`
(offset 8) when the table has at least 12 bytes. -/
def zeroHeadCheckSumAdjustment (tableData : List Nat) : List Nat :=
  if tableData.length ≥ 12 then setU32 tableData 8 0 else tableData

/-- The final `head.checkSumAdjustment` fixup of `reconstructFont`
(decode.ts lines 596–608, single-font path): store
`(0xb1b0afba - computeChecksum(output, 0, dstOffset)) >>> 0` at
`headDstOffset + 8`. -/
def patchHeadCheckSumAdjustment (output : List Nat)
    (headDstOffset dstOffset : Nat) : List Nat :=
  setU32 output (headDstOffset + 8)
    (toUint32 (3084367802 - (computeChecksum output 0 dstOffset : Int)))

theorem byteAt_setU32_outside (data : List Nat) (i v j : Nat)
    (h : j < i ∨ i + 4 ≤ j) : byteAt (setU32 data i v) j = byteAt data j := by
  unfold setU32
  rw [byteAt_setByte_ne _ _ _ _ (by omega), byteAt_setByte_ne _ _ _ _ (by omega),
    byteAt_setByte_ne _ _ _ _ (by omega), byteAt_setByte_ne _ _ _ _ (by omega)]

theorem byteAt_setU32_b0 (data : List Nat) (i v : Nat) (h : i < data.length) :
    byteAt (setU32 data i v) i = v % 4294967296 / 16777216 % 256 := by
  unfold setU32
  rw [byteAt_setByte_ne _ _ _ _ (by omega), byteAt_setByte_ne _ _ _ _ (by omega),
    byteAt_setByte_ne _ _ _ _ (by omega), byteAt_setByte_self _ _ _ h]

theorem byteAt_setU32_b1 (data : List Nat) (i v : Nat)
    (h : i + 1 < data.length) :
    byteAt (setU32 data i v) (i + 1) = v % 16777216 / 65536 % 256 := by
  unfold setU32
  rw [byteAt_setByte_ne _ _ _ _ (by omega), byteAt_setByte_ne _ _ _ _ (by omega),
    byteAt_setByte_self _ _ _ (by simpa using h)]

theorem byteAt_setU32_b2 (data : List Nat) (i v : Nat)
    (h : i + 2 < data.length) :
    byteAt (setU32 data i v) (i + 2) = v % 65536 / 256 % 256 := by
  unfold setU32
  rw [byteAt_setByte_ne _ _ _ _ (by omega),
    byteAt_setByte_self _ _ _ (by simpa using h)]

theorem byteAt_setU32_b3 (data : List Nat) (i v : Nat)
    (h : i + 3 < data.length) :
    byteAt (setU32 data i v) (i + 3) = v % 256 % 256 := by
  unfold setU32
  rw [byteAt_setByte_self _ _ _ (by simpa using h)]

theorem getU32_setU32_self (data : List Nat) (i v : Nat)
    (h : i + 4 ≤ data.length) :
    getU32 (setU32 data i v) i = v % 4294967296 := by
  unfold getU32
  rw [show i + 1 + 1 = i + 2 by omega, show i + 2 + 1 = i + 3 by omega]
  rw [byteAt_setU32_b0 _ _ _ (by omega), byteAt_setU32_b1 _ _ _ (by omega),
    byteAt_setU32_b2 _ _ _ (by omega), byteAt_setU32_b3 _ _ _ (by omega)]
  omega

theorem byteAt_eq_getElem (data : List Nat) (n : Nat) (h : n < data.length) :
    byteAt data n = data[n] := by
  unfold byteAt
  rw [List.getD_eq_getElem?_getD, List.getElem?_eq_getElem h]
  rfl

theorem setU32_cancel (data : List Nat) (i v : Nat)
    (h : i + 4 ≤ data.length) (hz : ∀ k < 4, byteAt data (i + k) = 0) :
    setU32 (setU32 data i v) i 0 = data := by
  apply List.ext_getElem (by simp)
  intro n h1 h2
  by_cases hn : n < i ∨ i + 4 ≤ n
  · rw [← byteAt_eq_getElem _ _ h1, ← byteAt_eq_getElem _ _ h2,
      byteAt_setU32_outside _ _ _ _ hn, byteAt_setU32_outside _ _ _ _ hn]
  · have hk : ∃ k, k < 4 ∧ n = i + k := by
      refine ⟨n - i, by omega, by omega⟩
    obtain ⟨k, hk4, rfl⟩ := hk
    rw [← byteAt_eq_getElem _ _ h1, ← byteAt_eq_getElem _ _ h2]
    rw [hz k hk4]
    interval_cases k
    · simpa using byteAt_setU32_b0 (setU32 data i v) i 0 (by simp; omega)
    · simpa using byteAt_setU32_b1 (setU32 data i v) i 0 (by simp; omega)
    · simpa using byteAt_setU32_b2 (setU32 data i v) i 0 (by simp; omega)
    · simpa using byteAt_setU32_b3 (setU32 data i v) i 0 (by simp; omega)

/-! ## C2: `head.flags` bit 11 and `head.checkSumAdjustment` -/

/-- **C2.** Conformance of the `head` handling across
`woff2Decode ∘ woff2Encode`:
(i) the encoder's `head` copy has bit 11 of `head.flags` (offset 16) set;
(ii) the decoder's untransformed-table copy of `head` only zeroes
`checkSumAdjustment` and preserves the `flags` field, so bit 11 survives to
the output;
(iii) on the reconstructed font whose `checkSumAdjustment` bytes are zero, the
final fixup stores exactly `(0xB1B0AFBA − S') mod 2^32` at `head + 8`, where
`S'` is the checksum (sum of big-endian `u32` words mod `2^32`) of the entire
reconstructed SFNT with the `checkSumAdjustment` field zeroed — the patched
output with the field re-zeroed is the pre-patch output, whose checksum is
`S'`. -/
theorem head_conformance (head output : List Nat) (p : Nat)
    (hhead : 18 ≤ head.length)
    (hp : p + 12 ≤ output.length)
    (hz : ∀ k < 4, byteAt output (p + 8 + k) = 0) :
    Nat.testBit (getU16 (encodeHeadTable head) 16) 11 = true ∧
    getU16 (zeroHeadCheckSumAdjustment head) 16 = getU16 head 16 ∧
    (zeroHeadCheckSumAdjustment head).length = head.length ∧
    getU32 (patchHeadCheckSumAdjustment output p output.length) (p + 8) =
      toUint32 (3084367802 - (computeChecksum output 0 output.length : Int)) ∧
    setU32 (patchHeadCheckSumAdjustment output p output.length) (p + 8) 0 =
      output := by
  refine ⟨?_, ?_, ?_, ?_, ?_⟩
  · have hlt : getU16 (encodeHeadTable head) 16 =
        (getU16 head 16 ||| 2048) % 65536 := by
      unfold encodeHeadTable setU16 getU16
      rw [show (16 : Nat) + 1 = 17 from rfl]
      rw [byteAt_setByte_ne _ _ _ _ (by omega),
        byteAt_setByte_self _ _ _ (by simpa using (by omega : 16 < head.length)),
        byteAt_setByte_self _ _ _ (by simpa using (by omega : 17 < head.length))]
      omega
    rw [hlt, show (65536 : Nat) = 2 ^ 16 from rfl, Nat.testBit_mod_two_pow]
    simp only [Nat.testBit_or]
    rw [show (2048 : Nat) = 2 ^ 11 from rfl, Nat.testBit_two_pow_self]
    simp
  · unfold zeroHeadCheckSumAdjustment
    split
    · unfold getU16
      rw [show (16 : Nat) + 1 = 17 from rfl,
        byteAt_setU32_outside _ _ _ _ (by omega),
        byteAt_setU32_outside _ _ _ _ (by omega)]
    · rfl
  · unfold zeroHeadCheckSumAdjustment
    split <;> simp
  · unfold patchHeadCheckSumAdjustment
    rw [getU32_setU32_self _ _ _ (by omega)]
    have : toUint32 (3084367802 - (computeChecksum output 0 output.length : Int))
        < 4294967296 := by
      unfold toUint32; omega
    omega
  · unfold patchHeadCheckSumAdjustment
    exact setU32_cancel output (p + 8) _ (by omega) hz

/-- Witness for C2 on a concrete 20-byte `head` table and a concrete 16-byte
reconstructed font whose `checkSumAdjustment` field is zero. -/
theorem head_conformance_witness :
    Nat.testBit
      (getU16 (encodeHeadTable (List.replicate 20 0)) 16) 11 = true ∧
    getU32
      (patchHeadCheckSumAdjustment
        [0, 1, 2, 3, 4, 5, 6, 7, 8, 9, 10, 11, 0, 0, 0, 0] 4 16) 12 =
      toUint32 (3084367802 -
        (computeChecksum [0, 1, 2, 3, 4, 5, 6, 7, 8, 9, 10, 11, 0, 0, 0, 0]
          0 16 : Int)) := by
  have h := head_conformance (List.replicate 20 0)
    [0, 1, 2, 3, 4, 5, 6, 7, 8, 9, 10, 11, 0, 0, 0, 0] 4
    (by simp) (by simp) (by decide)
  exact ⟨h.1, h.2.2.2.1⟩

/-! ## hmtx inverse transform (`reconstructHmtx`, decode.ts lines 1171–1225) -/

/-- The advance-width loop: `advanceWidths[i] = bsReadU16(hmtxStream)` for
`numHMetrics` values. -/
def readAdvances (data : List Nat) (stop : Nat) :
    Nat → Nat → Except DecodeErr (List Nat × Nat)
  | pos, 0 => .ok ([], pos)
  | pos, n + 1 =>
    if pos + 2 > stop then .error .streamOverflow
    else
      match readAdvances data stop (pos + 2) n with
      | .error e => .error e
      | .ok (vs, p) => .ok (getU16 data pos :: vs, p)

/-- The LSB loops: `lsbs[i] = bsReadS16(hmtxStream)` when the corresponding
flag bit is clear (`hasRead`), else `lsbs[i] = xMins[i]`. -/
def readLsbs (data : List Nat) (stop : Nat) (hasRead : Bool)
    (xMins : List Int) : Nat → Nat → Nat → Except DecodeErr (List Int × Nat)
  | _, pos, 0 => .ok ([], pos)
  | i, pos, n + 1 =>
    if hasRead then
      if pos + 2 > stop then .error .streamOverflow
      else
        match readLsbs data stop hasRead xMins (i + 1) (pos + 2) n with
        | .error e => .error e
        | .ok (vs, p) => .ok (getS16 data pos :: vs, p)
    else
      match readLsbs data stop hasRead xMins (i + 1) pos n with
      | .error e => .error e
      | .ok (vs, p) => .ok (xMins.getD i 0 :: vs, p)

/-- The output loop of `reconstructHmtx`: `advanceWidth` (u16) plus `lsb`
(s16) for the first `numHMetrics` glyphs, then bare `lsb`s. -/
def hmtxEmit (advanceWidths : List Nat) (lsbs : List Int)
    (numHMetrics : Nat) : Nat → Nat → List Nat
  | _, 0 => []
  | i, n + 1 =>
    (if i < numHMetrics then u16Bytes (advanceWidths.getD i 0) else []) ++
      s16Bytes (lsbs.getD i 0) ++
      hmtxEmit advanceWidths lsbs numHMetrics (i + 1) n

/-- `reconstructHmtx` from decode.ts: reads the flag byte, the advance widths,
and the stored or elided LSB arrays, then emits the standard SFNT `hmtx`
layout. Only bits 0 and 1 of the flag byte are inspected. -/
def reconstructHmtx (data : List Nat) (srcOffset srcLength numGlyphs
    numHMetrics : Nat) (xMins : List Int) : Except DecodeErr (List Nat) :=
  let stop := srcOffset + srcLength
  if srcOffset ≥ stop then .error .streamOverflow
  else
    let hmtxFlags := byteAt data srcOffset
    let hasProportionalLsbs := decide (hmtxFlags &&& 1 = 0)
    let hasMonospaceLsbs := decide (hmtxFlags &&& 2 = 0)
    match readAdvances data stop (srcOffset + 1) numHMetrics with
    | .error e => .error e
    | .ok (advanceWidths, pos1) =>
      match readLsbs data stop hasProportionalLsbs xMins 0 pos1 numHMetrics with
      | .error e => .error e
      | .ok (lsbsP, pos2) =>
        match readLsbs data stop hasMonospaceLsbs xMins numHMetrics pos2
            (numGlyphs - numHMetrics) with
        | .error e => .error e
        | .ok (lsbsM, _) =>
          .ok (hmtxEmit advanceWidths (lsbsP ++ lsbsM) numHMetrics 0 numGlyphs)

/-! ## C6: the reserved hmtx flag bits are not validated -/

theorem readAdvances_spec (data : List Nat) (stop : Nat) :
    ∀ n pos vs p, readAdvances data stop pos n = .ok (vs, p) →
      pos ≤ p ∧ vs.length = n := by
  intro n
  induction n with
  | zero =>
    intro pos vs p h
    unfold readAdvances at h
    cases h
    exact ⟨Nat.le_refl _, rfl⟩
  | succ k ih =>
    intro pos vs p h
    unfold readAdvances at h
    split at h
    · cases h
    · cases hrec : readAdvances data stop (pos + 2) k with
      | error e => rw [hrec] at h; cases h
      | ok vp =>
        obtain ⟨vs1, p1⟩ := vp
        rw [hrec] at h
        cases h
        have := ih (pos + 2) vs1 _ hrec
        constructor
        · omega
        · simp [this.2]

theorem readLsbs_spec (data : List Nat) (stop : Nat) (hasRead : Bool)
    (xMins : List Int) :
    ∀ n i pos vs p, readLsbs data stop hasRead xMins i pos n = .ok (vs, p) →
      pos ≤ p ∧ vs.length = n := by
  intro n
  induction n with
  | zero =>
    intro i pos vs p h
    unfold readLsbs at h
    cases h
    exact ⟨Nat.le_refl _, rfl⟩
  | succ k ih =>
    intro i pos vs p h
    unfold readLsbs at h
    cases hasRead with
    | false =>
      simp only [Bool.false_eq_true, if_false] at h
      cases hrec : readLsbs data stop false xMins (i + 1) pos k with
      | error e => rw [hrec] at h; cases h
      | ok vp =>
        obtain ⟨vs1, p1⟩ := vp
        rw [hrec] at h
        cases h
        have := ih (i + 1) pos vs1 _ hrec
        constructor
        · omega
        · simp [this.2]
    | true =>
      simp only [if_true] at h
      split at h
      · cases h
      · cases hrec : readLsbs data stop true xMins (i + 1) (pos + 2) k with
        | error e => rw [hrec] at h; cases h
        | ok vp =>
          obtain ⟨vs1, p1⟩ := vp
          rw [hrec] at h
          cases h
          have := ih (i + 1) (pos + 2) vs1 _ hrec
          constructor
          · omega
          · simp [this.2]

theorem readAdvances_congr (d1 d2 : List Nat) (stop : Nat)
    (h : ∀ p, 1 ≤ p → byteAt d1 p = byteAt d2 p) :
    ∀ n pos, 1 ≤ pos → readAdvances d1 stop pos n = readAdvances d2 stop pos n := by
  intro n
  induction n with
  | zero => intro pos _; rfl
  | succ k ih =>
    intro pos hpos
    unfold readAdvances
    rw [ih (pos + 2) (by omega)]
    have : getU16 d1 pos = getU16 d2 pos := by
      unfold getU16
      rw [h pos hpos, h (pos + 1) (by omega)]
    rw [this]

theorem readLsbs_congr (d1 d2 : List Nat) (stop : Nat) (hasRead : Bool)
    (xMins : List Int) (h : ∀ p, 1 ≤ p → byteAt d1 p = byteAt d2 p) :
    ∀ n i pos, 1 ≤ pos →
      readLsbs d1 stop hasRead xMins i pos n =
        readLsbs d2 stop hasRead xMins i pos n := by
  intro n
  induction n with
  | zero => intro i pos _; rfl
  | succ k ih =>
    intro i pos hpos
    unfold readLsbs
    cases hasRead with
    | false => simp only [Bool.false_eq_true, if_false]; rw [ih (i + 1) pos hpos]
    | true =>
      simp only [if_true]
      rw [ih (i + 1) (pos + 2) (by omega)]
      have : getS16 d1 pos = getS16 d2 pos := by
        unfold getS16 getU16
        rw [h pos hpos, h (pos + 1) (by omega)]
      rw [this]

/-- **C6 (amended).** `reconstructHmtx` ignores bits 2–7 of the transformed
hmtx flag byte: decoding an hmtx whose flag byte is `f` proceeds exactly as if
the flag byte were `f mod 4`, reading only bits 0 and 1 — a set reserved bit
does not make the decode fail. -/
theorem reconstructHmtx_ignores_reserved_bits (f : Nat) (rest : List Nat)
    (numGlyphs numHMetrics : Nat) (xMins : List Int) :
    reconstructHmtx (f :: rest) 0 (1 + rest.length) numGlyphs numHMetrics
        xMins =
      reconstructHmtx (f % 4 :: rest) 0 (1 + rest.length) numGlyphs
        numHMetrics xMins := by
  have hagree : ∀ p, 1 ≤ p → byteAt (f :: rest) p = byteAt (f % 4 :: rest) p := by
    intro p hp
    obtain ⟨k, rfl⟩ : ∃ k, p = k + 1 := ⟨p - 1, by omega⟩
    simp
  have hand1 : f &&& 1 = f % 4 &&& 1 := by
    rw [Nat.and_one_is_mod, Nat.and_one_is_mod]
    omega
  have hand2 : f &&& 2 = f % 4 &&& 2 := by
    rw [show (2 : Nat) = 2 ^ 1 from rfl, Nat.and_two_pow, Nat.and_two_pow]
    rw [show (4 : Nat) = 2 ^ 2 from rfl, Nat.testBit_mod_two_pow]
    simp
  unfold reconstructHmtx
  rw [if_neg (by omega)]
  rw [if_neg (by omega)]
  simp only [byteAt_cons_zero]
  simp only [hand1, hand2]
  rw [readAdvances_congr (f :: rest) (f % 4 :: rest) _ hagree numHMetrics
    (0 + 1) (by omega)]
  cases hra : readAdvances (f % 4 :: rest) (0 + (1 + rest.length)) (0 + 1)
      numHMetrics with
  | error e => rfl
  | ok vp =>
    obtain ⟨advanceWidths, pos1⟩ := vp
    have hpos1 : 1 ≤ pos1 := (readAdvances_spec _ _ _ _ _ _ hra).1
    simp only []
    rw [readLsbs_congr (f :: rest) (f % 4 :: rest) _ _ _ hagree numHMetrics 0
      pos1 hpos1]
    cases hrl : readLsbs (f % 4 :: rest) (0 + (1 + rest.length))
        (decide (f % 4 &&& 1 = 0)) xMins 0 pos1 numHMetrics with
    | error e => rfl
    | ok vp2 =>
      obtain ⟨lsbsP, pos2⟩ := vp2
      have hpos2 : 1 ≤ pos2 := by
        have := (readLsbs_spec _ _ _ _ _ _ _ _ _ hrl).1
        omega
      simp only []
      rw [readLsbs_congr (f :: rest) (f % 4 :: rest) _ _ _ hagree
        (numGlyphs - numHMetrics) numHMetrics pos2 hpos2]

/-- **C6 counterexample.** A transformed hmtx whose flag byte is `0x04`
(reserved bit 2 set) is decoded successfully — `woff2Decode` does not fail
with `BadTransform` as claimed: with one h-metric and one glyph the table
`[0x04, 0x00, 0x64, 0x00, 0x05]` decodes to advance 100 and lsb 5. -/
theorem reconstructHmtx_accepts_reserved_bits :
    reconstructHmtx [4, 0, 100, 0, 5] 0 5 1 1 [0] = .ok [0, 100, 0, 5] := by
  rfl

/-- Witness for C6's amended theorem at the counterexample's input. -/
theorem reconstructHmtx_ignores_reserved_bits_witness :
    reconstructHmtx [4, 0, 100, 0, 5] 0 5 1 1 [0] =
      reconstructHmtx [0, 0, 100, 0, 5] 0 5 1 1 [0] := by
  have h := reconstructHmtx_ignores_reserved_bits 4 [0, 100, 0, 5] 1 1 [0]
  simpa using h

/-! ## hmtx forward transform (`transformHmtx`,
`woff2/encode/transform-hmtx.ts` lines 13–118) -/

/-- `glyphOffsets[i+1] - glyphOffsets[i]`. -/
def glyphLen (offs : List Nat) (i : Nat) : Int :=
  (offs.getD (i + 1) 0 : Int) - (offs.getD i 0 : Int)

/-- The per-glyph `xMin` used by the encoder's comparison: `0` for empty
glyphs, else `getInt16` at offset 2 of the glyph header in `glyf`. -/
def glyphXMin (glyf offs : List Nat) (i : Nat) : Int :=
  if 0 < glyphLen offs i then getS16 glyf (offs.getD i 0 + 2) else 0

/-- The per-glyph loop of `transformHmtx`: reads advance/lsb pairs for
proportional glyphs and bare lsbs for monospace glyphs, clears the
elimination flags on any `lsb ≠ xMin` mismatch of a nonempty glyph, and
returns `null` as soon as both flags are cleared. Returns the final flags and
the three collected arrays. -/
def transformHmtxLoop (glyf hmtx offs : List Nat) (numHMetrics : Nat) :
    Nat → Nat → Nat → Bool → Bool →
    Option (Bool × Bool × List Nat × List Int × List Int)
  | 0, _, _, canP, canM => some (canP, canM, [], [], [])
  | n + 1, i, hOff, canP, canM =>
    if i < numHMetrics then
      let advance := getU16 hmtx hOff
      let lsb := getS16 hmtx (hOff + 2)
      let canP1 := if 0 < glyphLen offs i ∧ lsb ≠ glyphXMin glyf offs i
        then false else canP
      if !canP1 && !canM then none
      else
        match transformHmtxLoop glyf hmtx offs numHMetrics n (i + 1)
            (hOff + 4) canP1 canM with
        | none => none
        | some (cp, cm, adv, pl, ml) =>
          some (cp, cm, advance :: adv, lsb :: pl, ml)
    else
      let lsb := getS16 hmtx hOff
      let canM1 := if 0 < glyphLen offs i ∧ lsb ≠ glyphXMin glyf offs i
        then false else canM
      if !canP && !canM1 then none
      else
        match transformHmtxLoop glyf hmtx offs numHMetrics n (i + 1)
            (hOff + 2) canP canM1 with
        | none => none
        | some (cp, cm, adv, pl, ml) =>
          some (cp, cm, adv, pl, lsb :: ml)

/-- `transformHmtx`: run the loop (monospace elimination starts enabled only
when `numGlyphs > numHMetrics`), then emit flags byte, advances, and the
non-eliminated LSB arrays — unless the transform does not save space. -/
def transformHmtx (glyf hmtx offs : List Nat) (numHMetrics numGlyphs : Nat) :
    Option (List Nat) :=
  match transformHmtxLoop glyf hmtx offs numHMetrics numGlyphs 0 0 true
      (decide (numGlyphs > numHMetrics)) with
  | none => none
  | some (canP, canM, advances, proportionalLsbs, monospaceLsbs) =>
    let flags := (if canP then 1 else 0) ||| (if canM then 2 else 0)
    let size := 1 + advances.length * 2 +
      (if !canP then proportionalLsbs.length * 2 else 0) +
      (if !canM then monospaceLsbs.length * 2 else 0)
    if size ≥ hmtx.length then none
    else
      some ([flags] ++ advances.flatMap u16Bytes ++
        (if !canP then proportionalLsbs.flatMap s16Bytes else []) ++
        (if !canM then monospaceLsbs.flatMap s16Bytes else []))

/-- The `xMin` vector harvested by `reconstructGlyf` for a faithfully encoded
font: the glyph-header `xMin` of every nonempty glyph, `0` (the `Int16Array`
default) for empty glyphs. -/
def harvestedXMins (glyf offs : List Nat) (numGlyphs : Nat) : List Int :=
  (List.range numGlyphs).map (glyphXMin glyf offs)

/-- Byte offset of glyph `i`'s record inside a standard `hmtx` table with
`H` h-metrics: 4 bytes per proportional glyph, 2 per monospace glyph. -/
def hOffAt (H i : Nat) : Nat := 4 * min i H + 2 * (i - H)

/-- The lsb stored for glyph `j` in the original `hmtx` bytes. -/
def origLsb (hmtx : List Nat) (H j : Nat) : Int :=
  getS16 hmtx (if j < H then 4 * j + 2 else hOffAt H j)

/-- The advance sequence the encoder loop collects from glyph `i` on. -/
def advSeq (hmtx : List Nat) (H : Nat) : Nat → Nat → List Nat
  | _, 0 => []
  | i, n + 1 =>
    (if i < H then [getU16 hmtx (4 * i)] else []) ++ advSeq hmtx H (i + 1) n

/-- The proportional-lsb sequence the encoder loop collects. -/
def plSeq (hmtx : List Nat) (H : Nat) : Nat → Nat → List Int
  | _, 0 => []
  | i, n + 1 =>
    (if i < H then [getS16 hmtx (4 * i + 2)] else []) ++ plSeq hmtx H (i + 1) n

/-- The monospace-lsb sequence the encoder loop collects. -/
def mlSeq (hmtx : List Nat) (H : Nat) : Nat → Nat → List Int
  | _, 0 => []
  | i, n + 1 =>
    (if i < H then [] else [getS16 hmtx (hOffAt H i)]) ++ mlSeq hmtx H (i + 1) n

theorem hOffAt_lt (H i : Nat) (h : i < H) : hOffAt H i = 4 * i := by
  unfold hOffAt
  have : min i H = i := by omega
  rw [this]
  omega

theorem hOffAt_ge (H i : Nat) (h : H ≤ i) : hOffAt H i = 4 * H + 2 * (i - H) := by
  unfold hOffAt
  have : min i H = H := by omega
  rw [this]

theorem hOffAt_succ_lt (H i : Nat) (h : i < H) :
    hOffAt H (i + 1) = hOffAt H i + 4 := by
  unfold hOffAt
  have h1 : min i H = i := by omega
  have h2 : min (i + 1) H = i + 1 := by omega
  rw [h1, h2]
  omega

theorem hOffAt_succ_ge (H i : Nat) (h : H ≤ i) :
    hOffAt H (i + 1) = hOffAt H i + 2 := by
  unfold hOffAt
  have h1 : min i H = H := by omega
  have h2 : min (i + 1) H = H := by omega
  rw [h1, h2]
  omega

/-- What a successful run of the encoder loop returns: the three arrays are
the original `hmtx` values at their standard offsets, and a still-set
elimination flag certifies `lsb = xMin` for every nonempty glyph of its
range. -/
theorem transformHmtxLoop_char (glyf hmtx offs : List Nat) (H : Nat) :
    ∀ n i canP canM cp cm adv pl ml,
      transformHmtxLoop glyf hmtx offs H n i (hOffAt H i) canP canM =
        some (cp, cm, adv, pl, ml) →
      adv = advSeq hmtx H i n ∧ pl = plSeq hmtx H i n ∧
      ml = mlSeq hmtx H i n ∧
      (cp = true → canP = true ∧ ∀ j, i ≤ j → j < i + n → j < H →
        0 < glyphLen offs j →
        getS16 hmtx (4 * j + 2) = glyphXMin glyf offs j) ∧
      (cm = true → canM = true ∧ ∀ j, i ≤ j → j < i + n → H ≤ j →
        0 < glyphLen offs j →
        getS16 hmtx (hOffAt H j) = glyphXMin glyf offs j) := by
  intro n
  induction n with
  | zero =>
    intro i canP canM cp cm adv pl ml h
    unfold transformHmtxLoop at h
    cases h
    refine ⟨rfl, rfl, rfl, ?_, ?_⟩
    · intro hcp
      exact ⟨hcp, fun j h1 h2 => by omega⟩
    · intro hcm
      exact ⟨hcm, fun j h1 h2 => by omega⟩
  | succ n ih =>
    intro i canP canM cp cm adv pl ml h
    unfold transformHmtxLoop at h
    by_cases hiH : i < H
    · rw [if_pos hiH] at h
      dsimp only at h
      rw [show hOffAt H i + 4 = hOffAt H (i + 1) from
        (hOffAt_succ_lt H i hiH).symm] at h
      generalize hc1 : (if 0 < glyphLen offs i ∧
          getS16 hmtx (hOffAt H i + 2) ≠ glyphXMin glyf offs i
        then false else canP) = c1 at h
      split at h
      · cases h
      · cases hrec : transformHmtxLoop glyf hmtx offs H n (i + 1)
            (hOffAt H (i + 1)) c1 canM with
        | none => rw [hrec] at h; cases h
        | some val =>
          obtain ⟨cp1, cm1, adv1, pl1, ml1⟩ := val
          rw [hrec] at h
          simp only [Option.some.injEq, Prod.mk.injEq] at h
          obtain ⟨rfl, rfl, rfl, rfl, rfl⟩ := h
          obtain ⟨ha, hp, hm, hcpi, hcmi⟩ := ih (i + 1) c1 canM cp1 cm1
            adv1 pl1 ml1 hrec
          rw [hOffAt_lt H i hiH] at hc1 ⊢
          refine ⟨?_, ?_, ?_, ?_, ?_⟩
          · rw [ha]; simp [advSeq, hiH]
          · rw [hp]; simp [plSeq, hiH]
          · rw [hm]; simp [mlSeq, hiH]
          · intro hcp
            obtain ⟨hP1, hall⟩ := hcpi hcp
            subst hP1
            constructor
            · by_cases hcond : 0 < glyphLen offs i ∧
                  getS16 hmtx (4 * i + 2) ≠ glyphXMin glyf offs i
              · rw [if_pos hcond] at hc1; cases hc1
              · rw [if_neg hcond] at hc1; exact hc1
            · intro j h1 h2 h3 h4
              rcases Nat.eq_or_lt_of_le h1 with rfl | hgt
              · by_cases hcond : 0 < glyphLen offs i ∧
                    getS16 hmtx (4 * i + 2) ≠ glyphXMin glyf offs i
                · rw [if_pos hcond] at hc1; cases hc1
                · push_neg at hcond
                  exact hcond h4
              · exact hall j hgt (by omega) h3 h4
          · intro hcm
            obtain ⟨hM1, hall⟩ := hcmi hcm
            refine ⟨hM1, ?_⟩
            intro j h1 h2 h3 h4
            rcases Nat.eq_or_lt_of_le h1 with rfl | hgt
            · omega
            · exact hall j hgt (by omega) h3 h4
    · rw [if_neg hiH] at h
      dsimp only at h
      rw [show hOffAt H i + 2 = hOffAt H (i + 1) from
        (hOffAt_succ_ge H i (by omega)).symm] at h
      generalize hc1 : (if 0 < glyphLen offs i ∧
          getS16 hmtx (hOffAt H i) ≠ glyphXMin glyf offs i
        then false else canM) = c1 at h
      split at h
      · cases h
      · cases hrec : transformHmtxLoop glyf hmtx offs H n (i + 1)
            (hOffAt H (i + 1)) canP c1 with
        | none => rw [hrec] at h; cases h
        | some val =>
          obtain ⟨cp1, cm1, adv1, pl1, ml1⟩ := val
          rw [hrec] at h
          simp only [Option.some.injEq, Prod.mk.injEq] at h
          obtain ⟨rfl, rfl, rfl, rfl, rfl⟩ := h
          obtain ⟨ha, hp, hm, hcpi, hcmi⟩ := ih (i + 1) canP c1 cp1 cm1
            adv1 pl1 ml1 hrec
          refine ⟨?_, ?_, ?_, ?_, ?_⟩
          · rw [ha]; simp [advSeq, hiH]
          · rw [hp]; simp [plSeq, hiH]
          · rw [hm]; simp [mlSeq, hiH]
          · intro hcp
            obtain ⟨hP1, hall⟩ := hcpi hcp
            refine ⟨hP1, ?_⟩
            intro j h1 h2 h3 h4
            rcases Nat.eq_or_lt_of_le h1 with rfl | hgt
            · omega
            · exact hall j hgt (by omega) h3 h4
          · intro hcm
            obtain ⟨hM1, hall⟩ := hcmi hcm
            subst hM1
            constructor
            · by_cases hcond : 0 < glyphLen offs i ∧
                  getS16 hmtx (hOffAt H i) ≠ glyphXMin glyf offs i
              · rw [if_pos hcond] at hc1; cases hc1
              · rw [if_neg hcond] at hc1; exact hc1
            · intro j h1 h2 h3 h4
              rcases Nat.eq_or_lt_of_le h1 with rfl | hgt
              · by_cases hcond : 0 < glyphLen offs i ∧
                    getS16 hmtx (hOffAt H i) ≠ glyphXMin glyf offs i
                · rw [if_pos hcond] at hc1; cases hc1
                · push_neg at hcond
                  exact hcond h4
              · exact hall j hgt (by omega) h3 h4

theorem advSeq_length (hmtx : List Nat) (H : Nat) :
    ∀ n i, (advSeq hmtx H i n).length = min n (H - i) := by
  intro n
  induction n with
  | zero => intro i; simp [advSeq]
  | succ n ih =>
    intro i
    by_cases hiH : i < H <;> simp [advSeq, hiH, ih (i + 1)] <;> omega

theorem plSeq_length (hmtx : List Nat) (H : Nat) :
    ∀ n i, (plSeq hmtx H i n).length = min n (H - i) := by
  intro n
  induction n with
  | zero => intro i; simp [plSeq]
  | succ n ih =>
    intro i
    by_cases hiH : i < H <;> simp [plSeq, hiH, ih (i + 1)] <;> omega

theorem mlSeq_length (hmtx : List Nat) (H : Nat) :
    ∀ n i, (mlSeq hmtx H i n).length = n - (H - i) := by
  intro n
  induction n with
  | zero => intro i; simp [mlSeq]
  | succ n ih =>
    intro i
    by_cases hiH : i < H <;> simp [mlSeq, hiH, ih (i + 1)] <;> omega

theorem advSeq_getD (hmtx : List Nat) (H : Nat) :
    ∀ n i k, i + k < H → k < n →
      (advSeq hmtx H i n).getD k 0 = getU16 hmtx (4 * (i + k)) := by
  intro n
  induction n with
  | zero => intro i k _ h; omega
  | succ n ih =>
    intro i k hk hn
    have hiH : i < H := by omega
    cases k with
    | zero => simp [advSeq, hiH]
    | succ k =>
      simp only [advSeq, if_pos hiH, List.singleton_append, List.getD_cons_succ]
      rw [ih (i + 1) k (by omega) (by omega)]
      congr 1
      omega

theorem plSeq_getD (hmtx : List Nat) (H : Nat) :
    ∀ n i k, i + k < H → k < n →
      (plSeq hmtx H i n).getD k 0 = getS16 hmtx (4 * (i + k) + 2) := by
  intro n
  induction n with
  | zero => intro i k _ h; omega
  | succ n ih =>
    intro i k hk hn
    have hiH : i < H := by omega
    cases k with
    | zero => simp [plSeq, hiH]
    | succ k =>
      simp only [plSeq, if_pos hiH, List.singleton_append, List.getD_cons_succ]
      rw [ih (i + 1) k (by omega) (by omega)]
      congr 2
      omega

theorem mlSeq_getD_ge (hmtx : List Nat) (H : Nat) :
    ∀ n i k, H ≤ i → k < n →
      (mlSeq hmtx H i n).getD k 0 = getS16 hmtx (hOffAt H (i + k)) := by
  intro n
  induction n with
  | zero => intro i k _ h; omega
  | succ n ih =>
    intro i k hiH hn
    have hnot : ¬ i < H := by omega
    cases k with
    | zero => simp [mlSeq, hnot]
    | succ k =>
      simp only [mlSeq, if_neg hnot, List.singleton_append, List.getD_cons_succ]
      rw [ih (i + 1) k (by omega) (by omega)]
      congr 2
      omega

theorem mlSeq_skip (hmtx : List Nat) (H : Nat) :
    ∀ n i, i ≤ H → mlSeq hmtx H i n = mlSeq hmtx H H (n - (H - i)) := by
  intro n
  induction n with
  | zero =>
    intro i _
    simp [mlSeq]
  | succ n ih =>
    intro i hiH
    by_cases hlt : i < H
    · have : mlSeq hmtx H i (n + 1) = mlSeq hmtx H (i + 1) n := by
        simp [mlSeq, hlt]
      rw [this, ih (i + 1) (by omega)]
      congr 1
      omega
    · have : i = H := by omega
      subst this
      simp

theorem range'_map_getD (f : Nat → Int) :
    ∀ n s k, k < n → (((List.range' s n).map f).getD k 0) = f (s + k) := by
  intro n
  induction n with
  | zero => intro s k h; omega
  | succ n ih =>
    intro s k hk
    rw [List.range'_succ]
    cases k with
    | zero => simp
    | succ k =>
      simp only [List.map_cons, List.getD_cons_succ]
      rw [ih (s + 1) k (by omega)]
      congr 1
      omega

theorem harvestedXMins_getD (glyf offs : List Nat) (G j : Nat) (h : j < G) :
    (harvestedXMins glyf offs G).getD j 0 = glyphXMin glyf offs j := by
  unfold harvestedXMins
  rw [List.range_eq_range', range'_map_getD _ G 0 j h]
  congr 1
  omega

theorem getD_append_lt {α : Type} (xs ys : List α) (i : Nat) (d : α)
    (h : i < xs.length) : (xs ++ ys).getD i d = xs.getD i d := by
  rw [List.getD_eq_getElem?_getD, List.getD_eq_getElem?_getD,
    List.getElem?_append_left h]

theorem getD_append_right {α : Type} (xs ys : List α) (k : Nat) (d : α) :
    (xs ++ ys).getD (xs.length + k) d = ys.getD k d := by
  rw [List.getD_eq_getElem?_getD, List.getD_eq_getElem?_getD,
    List.getElem?_append_right (by omega)]
  congr 2
  omega

theorem and_32768_eq (x : Nat) (h : x < 65536) :
    x &&& 32768 = if x < 32768 then 0 else 32768 := by
  have h2 := Nat.and_two_pow x 15
  rw [Nat.testBit_to_div_mod] at h2
  norm_num at h2
  by_cases hx : x < 32768
  · have hd : ¬ (x / 32768 % 2 = 1) := by omega
    simp [h2, hd, hx]
  · have hd : x / 32768 % 2 = 1 := by omega
    simp [h2, hd, hx]

theorem getS16_semantics (data : List Nat) (k : Nat)
    (h : getU16 data k < 65536) :
    getS16 data k = if getU16 data k < 32768 then (getU16 data k : Int)
      else (getU16 data k : Int) - 65536 := by
  unfold getS16
  dsimp only
  rw [and_32768_eq _ h]
  by_cases hx : getU16 data k < 32768 <;> simp [hx]

theorem getU16_lt (data : List Nat) (k : Nat)
    (hb : ∀ x ∈ data, x < 256) : getU16 data k < 65536 := by
  unfold getU16
  have h1 := byteAt_lt_256 data k hb
  have h2 := byteAt_lt_256 data (k + 1) hb
  omega

theorem getS16_range (data : List Nat) (k : Nat)
    (hb : ∀ x ∈ data, x < 256) :
    -32768 ≤ getS16 data k ∧ getS16 data k < 32768 := by
  have h := getU16_lt data k hb
  rw [getS16_semantics data k h]
  split <;> omega

/-- Reading back a `u16` written at `pre.length`. -/
theorem getU16_at_u16Bytes (pre post : List Nat) (v : Nat) :
    getU16 (pre ++ u16Bytes v ++ post) pre.length = v % 65536 := by
  unfold getU16 u16Bytes
  rw [List.append_assoc]
  have h0 := byteAt_append_right pre ([v % 65536 / 256, v % 256] ++ post) 0
  have h1 := byteAt_append_right pre ([v % 65536 / 256, v % 256] ++ post) 1
  simp only [Nat.add_zero] at h0
  rw [h0, h1]
  simp only [List.cons_append, List.nil_append, byteAt_cons_zero,
    byteAt_cons_succ]
  omega

/-- Reading back an `s16` written at `pre.length`. -/
theorem getS16_at_s16Bytes (pre post : List Nat) (v : Int)
    (hv : -32768 ≤ v ∧ v < 32768) :
    getS16 (pre ++ s16Bytes v ++ post) pre.length = v := by
  have hu : getU16 (pre ++ s16Bytes v ++ post) pre.length = toUint16 v := by
    unfold getU16 s16Bytes
    rw [List.append_assoc]
    have h0 := byteAt_append_right pre
      ([toUint16 v / 256, toUint16 v % 256] ++ post) 0
    have h1 := byteAt_append_right pre
      ([toUint16 v / 256, toUint16 v % 256] ++ post) 1
    simp only [Nat.add_zero] at h0
    rw [h0, h1]
    simp only [List.cons_append, List.nil_append, byteAt_cons_zero,
      byteAt_cons_succ]
    have : toUint16 v < 65536 := by unfold toUint16; omega
    omega
  have htu : toUint16 v < 65536 := by unfold toUint16; omega
  rw [getS16_semantics _ _ (by rw [hu]; exact htu), hu]
  unfold toUint16
  split <;> omega

/-- `bsReadU16` repeated over serialized `u16`s recovers the values. -/
theorem readAdvances_flat (vs : List Nat) (hv : ∀ v ∈ vs, v < 65536) :
    ∀ (pre post : List Nat) (stop : Nat),
      pre.length + 2 * vs.length ≤ stop →
      readAdvances (pre ++ vs.flatMap u16Bytes ++ post) stop pre.length
        vs.length = .ok (vs, pre.length + 2 * vs.length) := by
  induction vs with
  | nil =>
    intro pre post stop _
    simp [readAdvances]
  | cons v vs ih =>
    intro pre post stop hstop
    rw [show (v :: vs).length = vs.length + 1 from rfl]
    unfold readAdvances
    rw [if_neg (by simp at hstop ⊢; omega)]
    have hdata : pre ++ (v :: vs).flatMap u16Bytes ++ post =
        (pre ++ u16Bytes v) ++ vs.flatMap u16Bytes ++ post := by
      simp [List.flatMap_cons, List.append_assoc]
    have hlen2 : (pre ++ u16Bytes v).length = pre.length + 2 := by
      simp [u16Bytes]
    rw [hdata, show pre.length + 2 = (pre ++ u16Bytes v).length from hlen2.symm,
      ih (fun w hw => hv w (by simp [hw])) (pre ++ u16Bytes v) post stop
        (by rw [hlen2]; simp at hstop; omega)]
    have hg : getU16 ((pre ++ u16Bytes v) ++ vs.flatMap u16Bytes ++ post)
        pre.length = v := by
      have := getU16_at_u16Bytes pre (vs.flatMap u16Bytes ++ post) v
      rw [show (pre ++ u16Bytes v) ++ vs.flatMap u16Bytes ++ post =
        pre ++ u16Bytes v ++ (vs.flatMap u16Bytes ++ post) by
          simp [List.append_assoc]] at *
      rw [this]
      exact Nat.mod_eq_of_lt (hv v (by simp))
    rw [hg, hlen2]
    dsimp only
    have : pre.length + 2 + 2 * vs.length = pre.length + 2 * (vs.length + 1) := by
      omega
    rw [this]

/-- `bsReadS16` repeated over serialized `s16`s recovers the values. -/
theorem readLsbs_flat (xMins : List Int) (vs : List Int)
    (hv : ∀ v ∈ vs, -32768 ≤ v ∧ v < 32768) :
    ∀ (pre post : List Nat) (stop i : Nat),
      pre.length + 2 * vs.length ≤ stop →
      readLsbs (pre ++ vs.flatMap s16Bytes ++ post) stop true xMins i
        pre.length vs.length = .ok (vs, pre.length + 2 * vs.length) := by
  induction vs with
  | nil =>
    intro pre post stop i _
    simp [readLsbs]
  | cons v vs ih =>
    intro pre post stop i hstop
    rw [show (v :: vs).length = vs.length + 1 from rfl]
    unfold readLsbs
    simp only [if_true]
    rw [if_neg (by simp at hstop ⊢; omega)]
    have hdata : pre ++ (v :: vs).flatMap s16Bytes ++ post =
        (pre ++ s16Bytes v) ++ vs.flatMap s16Bytes ++ post := by
      simp [List.flatMap_cons, List.append_assoc]
    have hlen2 : (pre ++ s16Bytes v).length = pre.length + 2 := by
      simp [s16Bytes]
    rw [hdata, show pre.length + 2 = (pre ++ s16Bytes v).length from hlen2.symm,
      ih (fun w hw => hv w (by simp [hw])) (pre ++ s16Bytes v) post stop (i + 1)
        (by rw [hlen2]; simp at hstop; omega)]
    have hg : getS16 ((pre ++ s16Bytes v) ++ vs.flatMap s16Bytes ++ post)
        pre.length = v := by
      rw [show (pre ++ s16Bytes v) ++ vs.flatMap s16Bytes ++ post =
        pre ++ s16Bytes v ++ (vs.flatMap s16Bytes ++ post) by
          simp [List.append_assoc]]
      exact getS16_at_s16Bytes pre (vs.flatMap s16Bytes ++ post) v
        (hv v (by simp))
    rw [hg, hlen2]
    dsimp only
    have : pre.length + 2 + 2 * vs.length = pre.length + 2 * (vs.length + 1) := by
      omega
    rw [this]

/-- With the flag bit set, the LSB loop copies `xMins` without reading. -/
theorem readLsbs_elided (data : List Nat) (stop : Nat) (xMins : List Int) :
    ∀ n i pos, readLsbs data stop false xMins i pos n =
      .ok ((List.range' i n).map (fun j => xMins.getD j 0), pos) := by
  intro n
  induction n with
  | zero => intro i pos; simp [readLsbs]
  | succ n ih =>
    intro i pos
    unfold readLsbs
    simp only [Bool.false_eq_true, if_false]
    rw [ih (i + 1) pos]
    rw [List.range'_succ]
    rfl

theorem u16Bytes_getU16 (data : List Nat) (k : Nat)
    (hb : ∀ x ∈ data, x < 256) :
    u16Bytes (getU16 data k) = [byteAt data k, byteAt data (k + 1)] := by
  unfold u16Bytes getU16
  have h1 := byteAt_lt_256 data k hb
  have h2 := byteAt_lt_256 data (k + 1) hb
  simp only [List.cons.injEq, and_true]
  constructor <;> omega

theorem s16Bytes_getS16 (data : List Nat) (k : Nat)
    (hb : ∀ x ∈ data, x < 256) :
    s16Bytes (getS16 data k) = [byteAt data k, byteAt data (k + 1)] := by
  have h := getU16_lt data k hb
  have h1 := byteAt_lt_256 data k hb
  have h2 := byteAt_lt_256 data (k + 1) hb
  rw [getS16_semantics data k h]
  unfold s16Bytes toUint16
  unfold getU16 at *
  split <;>
    · simp only [List.cons.injEq, and_true]
      constructor <;> omega

theorem drop_two (data : List Nat) (k : Nat) (h : k + 2 ≤ data.length) :
    data.drop k = byteAt data k :: byteAt data (k + 1) :: data.drop (k + 2) := by
  rw [List.drop_eq_getElem_cons (by omega : k < data.length),
    List.drop_eq_getElem_cons (by omega : k + 1 < data.length),
    byteAt_eq_getElem data k (by omega), byteAt_eq_getElem data (k + 1) (by omega)]

theorem drop_four (data : List Nat) (k : Nat) (h : k + 4 ≤ data.length) :
    data.drop k = byteAt data k :: byteAt data (k + 1) :: byteAt data (k + 2) ::
      byteAt data (k + 3) :: data.drop (k + 4) := by
  rw [drop_two data k (by omega), drop_two data (k + 2) (by omega)]

/-- The decoder's output loop reproduces the original `hmtx` bytes from glyph
`i` on, provided the arrays hold the original values. -/
theorem hmtxEmit_eq_drop (hmtx : List Nat) (H G : Nat) (A : List Nat)
    (L : List Int) (hb : ∀ x ∈ hmtx, x < 256) (hHG : H ≤ G)
    (hlen : hmtx.length = 4 * H + 2 * (G - H))
    (hA : ∀ j, j < H → A.getD j 0 = getU16 hmtx (4 * j))
    (hL : ∀ j, j < G → L.getD j 0 = origLsb hmtx H j) :
    ∀ n i, i + n = G → hmtxEmit A L H i n = hmtx.drop (hOffAt H i) := by
  intro n
  induction n with
  | zero =>
    intro i hi
    have hioff : hOffAt H i = hmtx.length := by
      rw [hOffAt_ge H i (by omega)]
      omega
    rw [hioff, List.drop_length]
    rfl
  | succ n ih =>
    intro i hi
    by_cases hiH : i < H
    · have h4 : 4 * i + 4 ≤ hmtx.length := by omega
      unfold hmtxEmit
      rw [if_pos hiH, hA i hiH, hL i (by omega)]
      unfold origLsb
      rw [if_pos hiH]
      rw [u16Bytes_getU16 _ _ hb, s16Bytes_getS16 _ _ hb]
      rw [ih (i + 1) (by omega), hOffAt_succ_lt H i hiH, hOffAt_lt H i hiH]
      rw [drop_four hmtx (4 * i) (by omega)]
      simp only [List.cons_append, List.nil_append]
    · have hoff : hOffAt H i + 2 ≤ hmtx.length := by
        rw [hOffAt_ge H i (by omega)]
        omega
      unfold hmtxEmit
      rw [if_neg hiH, hL i (by omega)]
      unfold origLsb
      rw [if_neg hiH]
      rw [s16Bytes_getS16 _ _ hb]
      rw [ih (i + 1) (by omega), hOffAt_succ_ge H i (by omega)]
      rw [drop_two hmtx (hOffAt H i) (by omega)]
      simp only [List.cons_append, List.nil_append]

theorem advSeq_mem_lt (hmtx : List Nat) (H : Nat)
    (hb : ∀ x ∈ hmtx, x < 256) :
    ∀ n i v, v ∈ advSeq hmtx H i n → v < 65536 := by
  intro n
  induction n with
  | zero => intro i v h; simp [advSeq] at h
  | succ n ih =>
    intro i v h
    by_cases hiH : i < H
    · simp only [advSeq, if_pos hiH, List.singleton_append, List.mem_cons] at h
      rcases h with rfl | h
      · exact getU16_lt hmtx _ hb
      · exact ih (i + 1) v h
    · simp only [advSeq, if_neg hiH, List.nil_append] at h
      exact ih (i + 1) v h

theorem plSeq_mem_range (hmtx : List Nat) (H : Nat)
    (hb : ∀ x ∈ hmtx, x < 256) :
    ∀ n i v, v ∈ plSeq hmtx H i n → -32768 ≤ v ∧ v < 32768 := by
  intro n
  induction n with
  | zero => intro i v h; simp [plSeq] at h
  | succ n ih =>
    intro i v h
    by_cases hiH : i < H
    · simp only [plSeq, if_pos hiH, List.singleton_append, List.mem_cons] at h
      rcases h with rfl | h
      · exact getS16_range hmtx _ hb
      · exact ih (i + 1) v h
    · simp only [plSeq, if_neg hiH, List.nil_append] at h
      exact ih (i + 1) v h

theorem mlSeq_mem_range (hmtx : List Nat) (H : Nat)
    (hb : ∀ x ∈ hmtx, x < 256) :
    ∀ n i v, v ∈ mlSeq hmtx H i n → -32768 ≤ v ∧ v < 32768 := by
  intro n
  induction n with
  | zero => intro i v h; simp [mlSeq] at h
  | succ n ih =>
    intro i v h
    by_cases hiH : i < H
    · simp only [mlSeq, if_pos hiH, List.nil_append] at h
      exact ih (i + 1) v h
    · simp only [mlSeq, if_neg hiH, List.singleton_append, List.mem_cons] at h
      rcases h with rfl | h
      · exact getS16_range hmtx _ hb
      · exact ih (i + 1) v h

theorem flatMap_u16Bytes_length (vs : List Nat) :
    (vs.flatMap u16Bytes).length = 2 * vs.length := by
  induction vs with
  | nil => rfl
  | cons v vs ih => simp [List.flatMap_cons, u16Bytes, ih]; omega

theorem flatMap_s16Bytes_length (vs : List Int) :
    (vs.flatMap s16Bytes).length = 2 * vs.length := by
  induction vs with
  | nil => rfl
  | cons v vs ih => simp [List.flatMap_cons, s16Bytes, ih]; omega

/-- Decoding a transformed hmtx whose flags byte is 0: advances, then both
LSB streams are read from the data. -/
theorem reconstructHmtx_case_ff (D : List Nat) (adv : List Nat)
    (pl ml X : List Int) (G H : Nat)
    (hvA : ∀ v ∈ adv, v < 65536)
    (hvP : ∀ v ∈ pl, -32768 ≤ v ∧ v < 32768)
    (hvM : ∀ v ∈ ml, -32768 ≤ v ∧ v < 32768)
    (hA : adv.length = H) (hP : pl.length = H) (hM : ml.length = G - H)
    (hD : D = [0] ++ adv.flatMap u16Bytes ++ pl.flatMap s16Bytes ++
      ml.flatMap s16Bytes) :
    reconstructHmtx D 0 D.length G H X =
      .ok (hmtxEmit adv (pl ++ ml) H 0 G) := by
  have hDlen : D.length = 1 + 2 * H + 2 * H + 2 * (G - H) := by
    rw [hD]
    simp only [List.length_append, List.length_cons, List.length_nil,
      flatMap_u16Bytes_length, flatMap_s16Bytes_length, hA, hP, hM]
  have hb0 : byteAt D 0 = 0 := by rw [hD]; rfl
  have hra := readAdvances_flat adv hvA [0]
    (pl.flatMap s16Bytes ++ ml.flatMap s16Bytes) D.length
    (by simp only [List.length_cons, List.length_nil, Nat.zero_add, hA]; omega)
  rw [show [0] ++ adv.flatMap u16Bytes ++
      (pl.flatMap s16Bytes ++ ml.flatMap s16Bytes) = D from by
    rw [hD]; simp [List.append_assoc]] at hra
  simp only [List.length_cons, List.length_nil, Nat.zero_add, hA] at hra
  have hrl := readLsbs_flat X pl hvP ([0] ++ adv.flatMap u16Bytes)
    (ml.flatMap s16Bytes) D.length 0
    (by simp only [List.length_append, List.length_cons, List.length_nil,
      Nat.zero_add, flatMap_u16Bytes_length, hA, hP]; omega)
  rw [show ([0] ++ adv.flatMap u16Bytes) ++ pl.flatMap s16Bytes ++
      ml.flatMap s16Bytes = D from by rw [hD]] at hrl
  simp only [List.length_append, List.length_cons, List.length_nil,
    Nat.zero_add, flatMap_u16Bytes_length, hA, hP] at hrl
  have hrm := readLsbs_flat X ml hvM
    (([0] ++ adv.flatMap u16Bytes) ++ pl.flatMap s16Bytes) [] D.length H
    (by simp only [List.length_append, List.length_cons, List.length_nil,
      Nat.zero_add, flatMap_u16Bytes_length, flatMap_s16Bytes_length,
      hA, hP, hM]; omega)
  rw [show (([0] ++ adv.flatMap u16Bytes) ++ pl.flatMap s16Bytes) ++
      ml.flatMap s16Bytes ++ [] = D from by
    rw [hD]; simp [List.append_assoc]] at hrm
  simp only [List.length_append, List.length_cons, List.length_nil,
    Nat.zero_add, flatMap_u16Bytes_length, flatMap_s16Bytes_length,
    hA, hP, hM] at hrm
  unfold reconstructHmtx
  dsimp only
  rw [if_neg (show ¬(0 ≥ 0 + D.length) from by omega)]
  simp only [Nat.zero_add]
  rw [hb0, show decide ((0 : Nat) &&& 1 = 0) = true from rfl,
    show decide ((0 : Nat) &&& 2 = 0) = true from rfl, hra]
  dsimp only
  rw [hrl]
  dsimp only
  rw [hrm]

/-- Decoding a transformed hmtx whose flags byte is 1: the proportional LSBs
come from `xMins`, the monospace LSBs from the data. -/
theorem reconstructHmtx_case_tf (D : List Nat) (adv : List Nat)
    (ml X : List Int) (G H : Nat)
    (hvA : ∀ v ∈ adv, v < 65536)
    (hvM : ∀ v ∈ ml, -32768 ≤ v ∧ v < 32768)
    (hA : adv.length = H) (hM : ml.length = G - H)
    (hD : D = [1] ++ adv.flatMap u16Bytes ++ ml.flatMap s16Bytes) :
    reconstructHmtx D 0 D.length G H X =
      .ok (hmtxEmit adv
        (((List.range' 0 H).map fun j => X.getD j 0) ++ ml) H 0 G) := by
  have hDlen : D.length = 1 + 2 * H + 2 * (G - H) := by
    rw [hD]
    simp only [List.length_append, List.length_cons, List.length_nil,
      flatMap_u16Bytes_length, flatMap_s16Bytes_length, hA, hM]
  have hb0 : byteAt D 0 = 1 := by rw [hD]; rfl
  have hra := readAdvances_flat adv hvA [1] (ml.flatMap s16Bytes) D.length
    (by simp only [List.length_cons, List.length_nil, Nat.zero_add, hA]; omega)
  rw [show [1] ++ adv.flatMap u16Bytes ++ ml.flatMap s16Bytes = D from
    hD.symm] at hra
  simp only [List.length_cons, List.length_nil, Nat.zero_add, hA] at hra
  have hrm := readLsbs_flat X ml hvM ([1] ++ adv.flatMap u16Bytes) []
    D.length H
    (by simp only [List.length_append, List.length_cons, List.length_nil,
      Nat.zero_add, flatMap_u16Bytes_length, hA, hM]; omega)
  rw [show ([1] ++ adv.flatMap u16Bytes) ++ ml.flatMap s16Bytes ++ [] = D
      from by rw [hD]; simp [List.append_assoc]] at hrm
  simp only [List.length_append, List.length_cons, List.length_nil,
    Nat.zero_add, flatMap_u16Bytes_length, hA, hM] at hrm
  unfold reconstructHmtx
  dsimp only
  rw [if_neg (show ¬(0 ≥ 0 + D.length) from by omega)]
  simp only [Nat.zero_add]
  rw [hb0, show decide ((1 : Nat) &&& 1 = 0) = false from rfl,
    show decide ((1 : Nat) &&& 2 = 0) = true from rfl, hra]
  dsimp only
  rw [readLsbs_elided]
  dsimp only
  rw [hrm]

/-- Decoding a transformed hmtx whose flags byte is 2: the proportional LSBs
come from the data, the monospace LSBs from `xMins`. -/
theorem reconstructHmtx_case_ft (D : List Nat) (adv : List Nat)
    (pl X : List Int) (G H : Nat)
    (hvA : ∀ v ∈ adv, v < 65536)
    (hvP : ∀ v ∈ pl, -32768 ≤ v ∧ v < 32768)
    (hA : adv.length = H) (hP : pl.length = H)
    (hD : D = [2] ++ adv.flatMap u16Bytes ++ pl.flatMap s16Bytes) :
    reconstructHmtx D 0 D.length G H X =
      .ok (hmtxEmit adv
        (pl ++ (List.range' H (G - H)).map fun j => X.getD j 0) H 0 G) := by
  have hDlen : D.length = 1 + 2 * H + 2 * H := by
    rw [hD]
    simp only [List.length_append, List.length_cons, List.length_nil,
      flatMap_u16Bytes_length, flatMap_s16Bytes_length, hA, hP]
  have hb0 : byteAt D 0 = 2 := by rw [hD]; rfl
  have hra := readAdvances_flat adv hvA [2] (pl.flatMap s16Bytes) D.length
    (by simp only [List.length_cons, List.length_nil, Nat.zero_add, hA]; omega)
  rw [show [2] ++ adv.flatMap u16Bytes ++ pl.flatMap s16Bytes = D from
    hD.symm] at hra
  simp only [List.length_cons, List.length_nil, Nat.zero_add, hA] at hra
  have hrl := readLsbs_flat X pl hvP ([2] ++ adv.flatMap u16Bytes) []
    D.length 0
    (by simp only [List.length_append, List.length_cons, List.length_nil,
      Nat.zero_add, flatMap_u16Bytes_length, hA, hP]; omega)
  rw [show ([2] ++ adv.flatMap u16Bytes) ++ pl.flatMap s16Bytes ++ [] = D
      from by rw [hD]; simp [List.append_assoc]] at hrl
  simp only [List.length_append, List.length_cons, List.length_nil,
    Nat.zero_add, flatMap_u16Bytes_length, hA, hP] at hrl
  unfold reconstructHmtx
  dsimp only
  rw [if_neg (show ¬(0 ≥ 0 + D.length) from by omega)]
  simp only [Nat.zero_add]
  rw [hb0, show decide ((2 : Nat) &&& 1 = 0) = true from rfl,
    show decide ((2 : Nat) &&& 2 = 0) = false from rfl, hra]
  dsimp only
  rw [hrl]
  dsimp only
  rw [readLsbs_elided]

/-- Decoding a transformed hmtx whose flags byte is 3: both LSB arrays are
taken from `xMins`. -/
theorem reconstructHmtx_case_tt (D : List Nat) (adv : List Nat) (X : List Int)
    (G H : Nat) (hvA : ∀ v ∈ adv, v < 65536) (hA : adv.length = H)
    (hD : D = [3] ++ adv.flatMap u16Bytes) :
    reconstructHmtx D 0 D.length G H X =
      .ok (hmtxEmit adv
        (((List.range' 0 H).map fun j => X.getD j 0) ++
          ((List.range' H (G - H)).map fun j => X.getD j 0)) H 0 G) := by
  have hDlen : D.length = 1 + 2 * H := by
    rw [hD]
    simp only [List.length_append, List.length_cons, List.length_nil,
      flatMap_u16Bytes_length, hA]
  have hb0 : byteAt D 0 = 3 := by rw [hD]; rfl
  have hra := readAdvances_flat adv hvA [3] [] D.length
    (by simp only [List.length_cons, List.length_nil, Nat.zero_add, hA]; omega)
  rw [show [3] ++ adv.flatMap u16Bytes ++ [] = D from by
    rw [hD]; simp] at hra
  simp only [List.length_cons, List.length_nil, Nat.zero_add, hA] at hra
  unfold reconstructHmtx
  dsimp only
  rw [if_neg (show ¬(0 ≥ 0 + D.length) from by omega)]
  simp only [Nat.zero_add]
  rw [hb0, show decide ((3 : Nat) &&& 1 = 0) = false from rfl,
    show decide ((3 : Nat) &&& 2 = 0) = false from rfl, hra]
  dsimp only
  rw [readLsbs_elided]
  dsimp only
  rw [readLsbs_elided]

/-- **C4 (amended).** hmtx round-trip: whenever `transformHmtx` produces a
transformed table `t`, decoding `t` with `reconstructHmtx` and the `xMin`
vector harvested from the glyf transform reproduces the original `hmtx`
bytes — the `advanceWidth` and `lsb` arrays — bit-exactly, **provided every
empty glyph's stored lsb is `0`** (the harvested `xMin` of an empty glyph is
`0`, and the encoder does not let empty glyphs constrain the elision
decision, so a nonzero lsb of an empty glyph would be lost; see the
counterexample). -/
theorem hmtx_transform_roundtrip (glyf hmtx offs : List Nat)
    (numHMetrics numGlyphs : Nat) (t : List Nat)
    (hb : ∀ x ∈ hmtx, x < 256)
    (hHG : numHMetrics ≤ numGlyphs)
    (hlen : hmtx.length = 4 * numHMetrics + 2 * (numGlyphs - numHMetrics))
    (hempty : ∀ j, j < numGlyphs → ¬ (0 < glyphLen offs j) →
      origLsb hmtx numHMetrics j = 0)
    (ht : transformHmtx glyf hmtx offs numHMetrics numGlyphs = some t) :
    reconstructHmtx t 0 t.length numGlyphs numHMetrics
      (harvestedXMins glyf offs numGlyphs) = .ok hmtx := by
  unfold transformHmtx at ht
  cases hloop : transformHmtxLoop glyf hmtx offs numHMetrics numGlyphs 0 0
      true (decide (numGlyphs > numHMetrics)) with
  | none => rw [hloop] at ht; cases ht
  | some val =>
    obtain ⟨cp, cm, adv, pl, ml⟩ := val
    rw [hloop] at ht
    have hloop2 : transformHmtxLoop glyf hmtx offs numHMetrics numGlyphs 0
        (hOffAt numHMetrics 0) true
        (decide (numGlyphs > numHMetrics)) = some (cp, cm, adv, pl, ml) := by
      rw [show hOffAt numHMetrics 0 = 0 by unfold hOffAt; simp]
      exact hloop
    obtain ⟨ha, hp, hm, hcpi, hcmi⟩ := transformHmtxLoop_char glyf hmtx offs
      numHMetrics numGlyphs 0 true (decide (numGlyphs > numHMetrics))
      cp cm adv pl ml hloop2
    have hAlen : adv.length = numHMetrics := by
      rw [ha, advSeq_length]; omega
    have hPlen : pl.length = numHMetrics := by
      rw [hp, plSeq_length]; omega
    have hMlen : ml.length = numGlyphs - numHMetrics := by
      rw [hm, mlSeq_length]; omega
    have hvAdv : ∀ v ∈ adv, v < 65536 := by
      rw [ha]; exact fun v hv => advSeq_mem_lt hmtx numHMetrics hb _ _ v hv
    have hvPl : ∀ v ∈ pl, -32768 ≤ v ∧ v < 32768 := by
      rw [hp]; exact fun v hv => plSeq_mem_range hmtx numHMetrics hb _ _ v hv
    have hvMl : ∀ v ∈ ml, -32768 ≤ v ∧ v < 32768 := by
      rw [hm]; exact fun v hv => mlSeq_mem_range hmtx numHMetrics hb _ _ v hv
    have hAget : ∀ j, j < numHMetrics → adv.getD j 0 = getU16 hmtx (4 * j) := by
      intro j hj
      rw [ha, advSeq_getD hmtx numHMetrics numGlyphs 0 j (by omega) (by omega)]
      congr 1
      omega
    have hPget : ∀ j, j < numHMetrics →
        pl.getD j 0 = getS16 hmtx (4 * j + 2) := by
      intro j hj
      rw [hp, plSeq_getD hmtx numHMetrics numGlyphs 0 j (by omega) (by omega)]
      congr 1
      omega
    have hMget : ∀ k, k < numGlyphs - numHMetrics →
        ml.getD k 0 = getS16 hmtx (hOffAt numHMetrics (numHMetrics + k)) := by
      intro k hk
      rw [hm, mlSeq_skip hmtx numHMetrics numGlyphs 0 (by omega)]
      rw [mlSeq_getD_ge hmtx numHMetrics (numGlyphs - (numHMetrics - 0))
        numHMetrics k (by omega) (by omega)]
    -- lsb reconstruction targets
    have hLPpl : ∀ j, j < numHMetrics → pl.getD j 0 =
        origLsb hmtx numHMetrics j := by
      intro j hj
      rw [hPget j hj]
      unfold origLsb
      rw [if_pos hj]
    have hLMml : ∀ k, k < numGlyphs - numHMetrics → ml.getD k 0 =
        origLsb hmtx numHMetrics (numHMetrics + k) := by
      intro k hk
      rw [hMget k hk]
      unfold origLsb
      rw [if_neg (by omega)]
    have hLPx : cp = true → ∀ j, j < numHMetrics →
        (harvestedXMins glyf offs numGlyphs).getD j 0 = origLsb hmtx numHMetrics j := by
      intro hcp j hj
      rw [harvestedXMins_getD glyf offs numGlyphs j (by omega)]
      by_cases hg : 0 < glyphLen offs j
      · have := (hcpi hcp).2 j (by omega) (by omega) hj hg
        unfold origLsb
        rw [if_pos hj, this]
      · rw [hempty j (by omega) hg]
        unfold glyphXMin
        rw [if_neg hg]
    have hLMx : cm = true → ∀ k, k < numGlyphs - numHMetrics →
        (harvestedXMins glyf offs numGlyphs).getD (numHMetrics + k) 0 =
        origLsb hmtx numHMetrics (numHMetrics + k) := by
      intro hcm k hk
      rw [harvestedXMins_getD glyf offs numGlyphs _ (by omega)]
      by_cases hg : 0 < glyphLen offs (numHMetrics + k)
      · have := (hcmi hcm).2 (numHMetrics + k) (by omega) (by omega)
          (by omega) hg
        unfold origLsb
        rw [if_neg (by omega), this]
      · rw [hempty (numHMetrics + k) (by omega) hg]
        unfold glyphXMin
        rw [if_neg hg]
    dsimp only at ht
    cases cp <;> cases cm
    · -- flags byte 0: both LSB streams stored
      simp only [Bool.not_false, Bool.not_true, Bool.false_eq_true,
        eq_self_iff_true, if_false, if_true, List.append_nil,
        Nat.add_zero] at ht
      rw [show ((0 : Nat) ||| 0) = 0 from by decide] at ht
      split at ht
      · cases ht
      · injection ht with ht
        subst ht
        rw [reconstructHmtx_case_ff _ adv pl ml
          (harvestedXMins glyf offs numGlyphs) numGlyphs numHMetrics
          hvAdv hvPl hvMl hAlen hPlen hMlen rfl]
        have hL : ∀ j, j < numGlyphs → (pl ++ ml).getD j 0 =
            origLsb hmtx numHMetrics j := by
          intro j hj
          by_cases hjH : j < numHMetrics
          · rw [getD_append_lt pl ml j 0 (by rw [hPlen]; omega), hLPpl j hjH]
          · have hj2 : j = pl.length + (j - numHMetrics) := by
              rw [hPlen]; omega
            rw [hj2, getD_append_right, hLMml (j - numHMetrics) (by omega)]
            congr 1
            omega
        have hemit := hmtxEmit_eq_drop hmtx numHMetrics numGlyphs adv _
          hb hHG hlen hAget hL numGlyphs 0 (by omega)
        rw [show hOffAt numHMetrics 0 = 0 from by unfold hOffAt; simp,
          List.drop_zero] at hemit
        rw [hemit]
    · -- flags byte 2: proportional stream stored, monospace elided
      simp only [Bool.not_false, Bool.not_true, Bool.false_eq_true,
        eq_self_iff_true, if_false, if_true, List.append_nil,
        Nat.add_zero] at ht
      rw [show ((0 : Nat) ||| 2) = 2 from by decide] at ht
      split at ht
      · cases ht
      · injection ht with ht
        subst ht
        rw [reconstructHmtx_case_ft _ adv pl
          (harvestedXMins glyf offs numGlyphs) numGlyphs numHMetrics
          hvAdv hvPl hAlen hPlen rfl]
        have hL : ∀ j, j < numGlyphs →
            (pl ++ (List.range' numHMetrics (numGlyphs - numHMetrics)).map
              (fun j => (harvestedXMins glyf offs numGlyphs).getD j 0)).getD j 0 =
            origLsb hmtx numHMetrics j := by
          intro j hj
          by_cases hjH : j < numHMetrics
          · rw [getD_append_lt pl
              ((List.range' numHMetrics (numGlyphs - numHMetrics)).map
                (fun j => (harvestedXMins glyf offs numGlyphs).getD j 0)) j 0
              (by rw [hPlen]; omega), hLPpl j hjH]
          · have hj2 : j = pl.length + (j - numHMetrics) := by
              rw [hPlen]; omega
            rw [hj2, getD_append_right,
              show ((List.range' numHMetrics (numGlyphs - numHMetrics)).map
                fun j => (harvestedXMins glyf offs numGlyphs).getD j 0).getD (j - numHMetrics) 0 =
                (harvestedXMins glyf offs numGlyphs).getD (numHMetrics + (j - numHMetrics)) 0 from
                range'_map_getD _ (numGlyphs - numHMetrics) numHMetrics
                (j - numHMetrics) (by omega),
              hLMx rfl (j - numHMetrics) (by omega)]
            congr 1
            omega
        have hemit := hmtxEmit_eq_drop hmtx numHMetrics numGlyphs adv _
          hb hHG hlen hAget hL numGlyphs 0 (by omega)
        rw [show hOffAt numHMetrics 0 = 0 from by unfold hOffAt; simp,
          List.drop_zero] at hemit
        rw [hemit]
    · -- flags byte 1: proportional elided, monospace stream stored
      simp only [Bool.not_false, Bool.not_true, Bool.false_eq_true,
        eq_self_iff_true, if_false, if_true, List.append_nil,
        Nat.add_zero] at ht
      rw [show ((1 : Nat) ||| 0) = 1 from by decide] at ht
      split at ht
      · cases ht
      · injection ht with ht
        subst ht
        rw [reconstructHmtx_case_tf _ adv ml
          (harvestedXMins glyf offs numGlyphs) numGlyphs numHMetrics
          hvAdv hvMl hAlen hMlen rfl]
        have hL : ∀ j, j < numGlyphs →
            (((List.range' 0 numHMetrics).map
              (fun j => (harvestedXMins glyf offs numGlyphs).getD j 0)) ++ ml).getD j 0 =
            origLsb hmtx numHMetrics j := by
          intro j hj
          by_cases hjH : j < numHMetrics
          · rw [getD_append_lt ((List.range' 0 numHMetrics).map
                (fun j => (harvestedXMins glyf offs numGlyphs).getD j 0)) ml j 0
              (by simp only [List.length_map, List.length_range']; omega),
              show ((List.range' 0 numHMetrics).map
                fun j => (harvestedXMins glyf offs numGlyphs).getD j 0).getD j 0 =
                (harvestedXMins glyf offs numGlyphs).getD (0 + j) 0 from
                range'_map_getD _ numHMetrics 0 j hjH,
              Nat.zero_add, hLPx rfl j hjH]
          · have hj2 : j = ((List.range' 0 numHMetrics).map
                (fun j => (harvestedXMins glyf offs numGlyphs).getD j 0)).length + (j - numHMetrics) := by
              simp only [List.length_map, List.length_range']
              omega
            rw [hj2, getD_append_right, hLMml (j - numHMetrics) (by omega)]
            congr 1
            simp only [List.length_map, List.length_range']
        have hemit := hmtxEmit_eq_drop hmtx numHMetrics numGlyphs adv _
          hb hHG hlen hAget hL numGlyphs 0 (by omega)
        rw [show hOffAt numHMetrics 0 = 0 from by unfold hOffAt; simp,
          List.drop_zero] at hemit
        rw [hemit]
    · -- flags byte 3: both LSB arrays elided
      simp only [Bool.not_false, Bool.not_true, Bool.false_eq_true,
        eq_self_iff_true, if_false, if_true, List.append_nil,
        Nat.add_zero] at ht
      rw [show ((1 : Nat) ||| 2) = 3 from by decide] at ht
      split at ht
      · cases ht
      · injection ht with ht
        subst ht
        rw [reconstructHmtx_case_tt _ adv
          (harvestedXMins glyf offs numGlyphs) numGlyphs numHMetrics hvAdv hAlen rfl]
        have hL : ∀ j, j < numGlyphs →
            (((List.range' 0 numHMetrics).map
              (fun j => (harvestedXMins glyf offs numGlyphs).getD j 0)) ++
              ((List.range' numHMetrics (numGlyphs - numHMetrics)).map
              (fun j => (harvestedXMins glyf offs numGlyphs).getD j 0))).getD j 0 =
            origLsb hmtx numHMetrics j := by
          intro j hj
          by_cases hjH : j < numHMetrics
          · rw [getD_append_lt ((List.range' 0 numHMetrics).map
                (fun j => (harvestedXMins glyf offs numGlyphs).getD j 0))
                ((List.range' numHMetrics (numGlyphs - numHMetrics)).map
                (fun j => (harvestedXMins glyf offs numGlyphs).getD j 0)) j 0
              (by simp only [List.length_map, List.length_range']; omega),
              show ((List.range' 0 numHMetrics).map
                fun j => (harvestedXMins glyf offs numGlyphs).getD j 0).getD j 0 =
                (harvestedXMins glyf offs numGlyphs).getD (0 + j) 0 from
                range'_map_getD _ numHMetrics 0 j hjH,
              Nat.zero_add, hLPx rfl j hjH]
          · have hj2 : j = ((List.range' 0 numHMetrics).map
                (fun j => (harvestedXMins glyf offs numGlyphs).getD j 0)).length + (j - numHMetrics) := by
              simp only [List.length_map, List.length_range']
              omega
            rw [hj2, getD_append_right,
              show ((List.range' numHMetrics (numGlyphs - numHMetrics)).map
                fun j => (harvestedXMins glyf offs numGlyphs).getD j 0).getD (j - numHMetrics) 0 =
                (harvestedXMins glyf offs numGlyphs).getD (numHMetrics + (j - numHMetrics)) 0 from
                range'_map_getD _ (numGlyphs - numHMetrics) numHMetrics
                (j - numHMetrics) (by omega),
              hLMx rfl (j - numHMetrics) (by omega)]
            congr 1
            simp only [List.length_map, List.length_range']
        have hemit := hmtxEmit_eq_drop hmtx numHMetrics numGlyphs adv _
          hb hHG hlen hAget hL numGlyphs 0 (by omega)
        rw [show hOffAt numHMetrics 0 = 0 from by unfold hOffAt; simp,
          List.drop_zero] at hemit
        rw [hemit]

/-- **C4 (counterexample).** The unamended claim fails: with an empty glyph
(`glyphLen = 0`) whose stored `lsb` is `7`, the encoder still elides the
monospace LSB array (empty glyphs never veto elision), and the decoder
restores that glyph's `lsb` from the harvested `xMin` vector, which holds
the `Int16Array` default `0` for empty glyphs — so the round-trip returns
`0` where the original table stored `7`. -/
theorem hmtx_roundtrip_counterexample :
    transformHmtx [0, 0, 0, 5] [0, 100, 0, 5, 0, 7] [0, 4, 4] 1 2 =
      some [3, 0, 100] ∧
    reconstructHmtx [3, 0, 100] 0 3 2 1
      (harvestedXMins [0, 0, 0, 5] [0, 4, 4] 2) =
      .ok [0, 100, 0, 5, 0, 0] ∧
    ([0, 100, 0, 5, 0, 0] : List Nat) ≠ [0, 100, 0, 5, 0, 7] :=
  ⟨rfl, rfl, by decide⟩

/-- Witness for `hmtx_transform_roundtrip` at a concrete font: one
proportional glyph with `lsb = xMin = 5`; the transform elides the LSB array
(flags byte 1) and decoding restores the original 4-byte `hmtx`. -/
theorem hmtx_transform_roundtrip_witness :
    reconstructHmtx [1, 0, 100] 0 ([1, 0, 100] : List Nat).length 1 1
      (harvestedXMins [0, 0, 0, 5] [0, 4] 1) = .ok [0, 100, 0, 5] :=
  hmtx_transform_roundtrip [0, 0, 0, 5] [0, 100, 0, 5] [0, 4] 1 1 [1, 0, 100]
    (by decide) (by decide) (by decide) (by decide) rfl

/-! ## C1: triplet encoding (transform-glyf.ts writeTriplet vs the decoder) -/

/-- `writeTriplet` from transform-glyf.ts: returns the bytes pushed to the
flag stream and to the glyph stream. The flag byte is assembled with bitwise
OR exactly as in the source (`onCurveBit | 10 | ((absDx >> 7) & 0x0e) |
xSign` and so on). -/
def writeTriplet (onCurve : Bool) (dx dy : Int) : List Nat × List Nat :=
  let absDx := (if dx < 0 then -dx else dx).toNat
  let absDy := (if dy < 0 then -dy else dy).toNat
  let onCurveBit := if onCurve then 0 else 128
  let xSign := if dx ≥ 0 then 1 else 0
  let ySign := if dy ≥ 0 then 1 else 0
  if dx = 0 ∧ absDy < 1280 then
    ([onCurveBit ||| ((absDy >>> 7) &&& 14) ||| ySign], [absDy &&& 255])
  else if dy = 0 ∧ absDx < 1280 then
    ([onCurveBit ||| 10 ||| ((absDx >>> 7) &&& 14) ||| xSign], [absDx &&& 255])
  else if 0 < absDx ∧ absDx < 65 ∧ 0 < absDy ∧ absDy < 65 then
    let xySign := xSign ||| (ySign <<< 1)
    ([onCurveBit ||| 20 ||| ((absDx - 1) &&& 48) |||
        (((absDy - 1) &&& 48) >>> 2) ||| xySign],
      [(((absDx - 1) &&& 15) <<< 4) ||| ((absDy - 1) &&& 15)])
  else if 0 < absDx ∧ absDx < 769 ∧ 0 < absDy ∧ absDy < 769 then
    let xySign := xSign ||| (ySign <<< 1)
    ([onCurveBit ||| 84 ||| (((absDx - 1) >>> 8) * 12) |||
        (((absDy - 1) >>> 6) &&& 12) ||| xySign],
      [(absDx - 1) &&& 255, (absDy - 1) &&& 255])
  else if absDx < 4096 ∧ absDy < 4096 then
    let xySign := xSign ||| (ySign <<< 1)
    ([onCurveBit ||| 120 ||| xySign],
      [absDx >>> 4, ((absDx &&& 15) <<< 4) ||| (absDy >>> 8), absDy &&& 255])
  else
    let xySign := xSign ||| (ySign <<< 1)
    ([onCurveBit ||| 124 ||| xySign],
      [absDx >>> 8, absDx &&& 255, absDy >>> 8, absDy &&& 255])

/-- One iteration of the triplet loop in `encodeTripletsToScratch`
(decode.ts): from a flag byte and the pending glyph-stream bytes, the
on-curve bit and the `(dx, dy)` delta; `none` when the glyph stream has too
few bytes for the case selected by the flag. -/
def decodeTripletStep (flag : Nat) (glyphBytes : List Nat) :
    Option (Bool × Int × Int) :=
  let onCurve := decide (flag &&& 128 = 0)
  let flagLow := flag &&& 127
  if flagLow < 10 then
    match glyphBytes with
    | [] => none
    | b :: _ =>
      let dy : Int := (((flagLow &&& 14) <<< 7) + b : Nat)
      some (onCurve, 0, if flagLow &&& 1 = 0 then -dy else dy)
  else if flagLow < 20 then
    match glyphBytes with
    | [] => none
    | b :: _ =>
      let dx : Int := ((((flagLow - 10) &&& 14) <<< 7) + b : Nat)
      some (onCurve, (if flagLow &&& 1 = 0 then -dx else dx), 0)
  else if flagLow < 84 then
    match glyphBytes with
    | [] => none
    | b :: _ =>
      let b0 := flagLow - 20
      let dx : Int := (1 + (b0 &&& 48) + (b >>> 4) : Nat)
      let dy : Int := (1 + ((b0 &&& 12) <<< 2) + (b &&& 15) : Nat)
      some (onCurve, (if flagLow &&& 1 = 0 then -dx else dx),
        (if flagLow &&& 2 = 0 then -dy else dy))
  else if flagLow < 120 then
    match glyphBytes with
    | b0 :: b1 :: _ =>
      let idx := flagLow - 84
      let dx : Int := (1 + ((idx / 12) <<< 8) + b0 : Nat)
      let dy : Int := (1 + (((idx % 12) >>> 2) <<< 8) + b1 : Nat)
      some (onCurve, (if flagLow &&& 1 = 0 then -dx else dx),
        (if flagLow &&& 2 = 0 then -dy else dy))
    | _ => none
  else if flagLow < 124 then
    match glyphBytes with
    | b0 :: b1 :: b2 :: _ =>
      let dx : Int := ((b0 <<< 4) + (b1 >>> 4) : Nat)
      let dy : Int := (((b1 &&& 15) <<< 8) + b2 : Nat)
      some (onCurve, (if flagLow &&& 1 = 0 then -dx else dx),
        (if flagLow &&& 2 = 0 then -dy else dy))
    | _ => none
  else
    match glyphBytes with
    | b0 :: b1 :: b2 :: b3 :: _ =>
      let dx : Int := ((b0 <<< 8) + b1 : Nat)
      let dy : Int := ((b2 <<< 8) + b3 : Nat)
      some (onCurve, (if flagLow &&& 1 = 0 then -dx else dx),
        (if flagLow &&& 2 = 0 then -dy else dy))
    | _ => none

/-- **C1.** The triplet encoding does NOT round-trip: for the on-curve point
delta `(dx, dy) = (300, 0)` — well inside s16 range — `writeTriplet` emits
flag byte 11 and glyph byte 44, because it combines the case-2 base 10 with
the magnitude bits `(absDx >> 7) & 0x0e = 2` using bitwise OR (`10 | 2 =
10`) instead of addition; decoding that triplet yields `(44, 0)`, not
`(300, 0)`, so the glyf/loca point round-trip claimed by the spec fails. -/
theorem writeTriplet_not_inverted :
    writeTriplet true 300 0 = ([11], [44]) ∧
    decodeTripletStep 11 [44] = some (true, 44, 0) ∧
    ((44 : Int), (0 : Int)) ≠ ((300 : Int), (0 : Int)) :=
  ⟨by decide, by decide, by decide⟩

/-! ## C5/C9: `reconstructGlyf` (decode.ts) -/

/-- JS `ToInt16` (storing into an `Int16Array`). -/
def toInt16 (i : Int) : Int :=
  let u := i % 65536
  if u < 32768 then u else u - 65536

/-- `interface ByteStream` (decode.ts): a window `[pos, endPos)` of `data`. -/
structure ByteStream where
  data : List Nat
  pos : Nat
  endPos : Nat
  deriving Repr

def makeByteStream (data : List Nat) (start length : Nat) : ByteStream :=
  ⟨data, start, start + length⟩

def bsReadU8 (s : ByteStream) : Except DecodeErr (Nat × ByteStream) :=
  if s.pos ≥ s.endPos then .error .streamOverflow
  else .ok (byteAt s.data s.pos, { s with pos := s.pos + 1 })

def bsReadU16 (s : ByteStream) : Except DecodeErr (Nat × ByteStream) :=
  if s.pos + 2 > s.endPos then .error .streamOverflow
  else .ok (getU16 s.data s.pos, { s with pos := s.pos + 2 })

def bsReadS16 (s : ByteStream) : Except DecodeErr (Int × ByteStream) :=
  if s.pos + 2 > s.endPos then .error .streamOverflow
  else .ok (getS16 s.data s.pos, { s with pos := s.pos + 2 })

def fsReadU32 (s : ByteStream) : Except DecodeErr (Nat × ByteStream) :=
  if s.pos + 4 > s.endPos then .error .streamOverflow
  else .ok (getU32 s.data s.pos, { s with pos := s.pos + 4 })

def bsSkip (s : ByteStream) (n : Nat) : Except DecodeErr ByteStream :=
  if s.pos + n > s.endPos then .error .streamOverflow
  else .ok { s with pos := s.pos + n }

def fsReadBytes (s : ByteStream) (n : Nat) :
    Except DecodeErr (List Nat × ByteStream) :=
  if s.pos + n > s.endPos then .error .streamOverflow
  else .ok ((s.data.drop s.pos).take n, { s with pos := s.pos + n })

def bsRead255UShort (s : ByteStream) : Except DecodeErr (Nat × ByteStream) :=
  match bsReadU8 s with
  | .error e => .error e
  | .ok (code, s1) =>
    if code = 253 then bsReadU16 s1
    else if code = 255 then
      match bsReadU8 s1 with
      | .error e => .error e
      | .ok (b, s2) => .ok (253 + b, s2)
    else if code = 254 then
      match bsReadU8 s1 with
      | .error e => .error e
      | .ok (b, s2) => .ok (253 * 2 + b, s2)
    else .ok (code, s1)

/-- The `while (flags & FLAG_MORE_COMPONENTS)` scanner of
`readCompositeGlyph`; each iteration advances the stream, so the fuel
`endPos + 1` passed by the wrapper can never run out before a read fails. -/
def readCompositeLoop : Nat → ByteStream → Bool →
    Except DecodeErr (Bool × ByteStream)
  | 0, _, _ => .error .streamOverflow
  | fuel + 1, s, haveInstructions =>
    match bsReadU16 s with
    | .error e => .error e
    | .ok (flags, s1) =>
      let haveInstructions := haveInstructions || decide (flags &&& 256 ≠ 0)
      let argSize := 2 + (if flags &&& 1 ≠ 0 then 4 else 2) +
        (if flags &&& 8 ≠ 0 then 2
         else if flags &&& 64 ≠ 0 then 4
         else if flags &&& 128 ≠ 0 then 8 else 0)
      match bsSkip s1 argSize with
      | .error e => .error e
      | .ok s2 =>
        if flags &&& 32 ≠ 0 then readCompositeLoop fuel s2 haveInstructions
        else .ok (haveInstructions, s2)

def readCompositeGlyph (s : ByteStream) :
    Except DecodeErr (List Nat × Bool × ByteStream) :=
  match readCompositeLoop (s.endPos + 1) s false with
  | .error e => .error e
  | .ok (haveInstructions, s2) =>
    .ok ((s.data.drop s.pos).take (s2.pos - s.pos), haveInstructions, s2)

/-- The nPoints loop of the simple-glyph path: one 255UShort per contour,
accumulating `totalPoints` and the `contourEndsScratch` entries
(`endPoint` starts at `-1` and the `Uint16Array` store wraps). -/
def readContourEnds : Nat → ByteStream → Nat → Int → List Nat →
    Except DecodeErr (Nat × List Nat × ByteStream)
  | 0, s, totalPoints, _, acc => .ok (totalPoints, acc, s)
  | k + 1, s, totalPoints, endPoint, acc =>
    match bsRead255UShort s with
    | .error e => .error e
    | .ok (n, s1) =>
      readContourEnds k s1 (totalPoints + n) (endPoint + n)
        (acc ++ [toUint16 (endPoint + n)])

/-- One triplet of `encodeTripletsToScratch`: the delta bytes the flag byte
selects from the glyph stream (the flag byte itself was already read). -/
def readTripletDelta (flag : Nat) (gs : ByteStream) :
    Except DecodeErr (Int × Int × ByteStream) :=
  let flagLow := flag &&& 127
  let d := gs.data
  let p := gs.pos
  if flagLow < 10 then
    if p ≥ gs.endPos then .error .streamOverflow
    else
      let b := byteAt d p
      let dy : Int := (((flagLow &&& 14) <<< 7) + b : Nat)
      .ok (0, (if flagLow &&& 1 = 0 then -dy else dy), { gs with pos := p + 1 })
  else if flagLow < 20 then
    if p ≥ gs.endPos then .error .streamOverflow
    else
      let b := byteAt d p
      let dx : Int := ((((flagLow - 10) &&& 14) <<< 7) + b : Nat)
      .ok ((if flagLow &&& 1 = 0 then -dx else dx), 0, { gs with pos := p + 1 })
  else if flagLow < 84 then
    if p ≥ gs.endPos then .error .streamOverflow
    else
      let b := byteAt d p
      let b0 := flagLow - 20
      let dx : Int := (1 + (b0 &&& 48) + (b >>> 4) : Nat)
      let dy : Int := (1 + ((b0 &&& 12) <<< 2) + (b &&& 15) : Nat)
      .ok ((if flagLow &&& 1 = 0 then -dx else dx),
        (if flagLow &&& 2 = 0 then -dy else dy), { gs with pos := p + 1 })
  else if flagLow < 120 then
    if p + 1 ≥ gs.endPos then .error .streamOverflow
    else
      let b0 := byteAt d p
      let b1 := byteAt d (p + 1)
      let idx := flagLow - 84
      let dx : Int := (1 + ((idx / 12) <<< 8) + b0 : Nat)
      let dy : Int := (1 + (((idx % 12) >>> 2) <<< 8) + b1 : Nat)
      .ok ((if flagLow &&& 1 = 0 then -dx else dx),
        (if flagLow &&& 2 = 0 then -dy else dy), { gs with pos := p + 2 })
  else if flagLow < 124 then
    if p + 2 ≥ gs.endPos then .error .streamOverflow
    else
      let b0 := byteAt d p
      let b1 := byteAt d (p + 1)
      let b2 := byteAt d (p + 2)
      let dx : Int := ((b0 <<< 4) + (b1 >>> 4) : Nat)
      let dy : Int := (((b1 &&& 15) <<< 8) + b2 : Nat)
      .ok ((if flagLow &&& 1 = 0 then -dx else dx),
        (if flagLow &&& 2 = 0 then -dy else dy), { gs with pos := p + 3 })
  else
    if p + 3 ≥ gs.endPos then .error .streamOverflow
    else
      let b0 := byteAt d p
      let b1 := byteAt d (p + 1)
      let b2 := byteAt d (p + 2)
      let b3 := byteAt d (p + 3)
      let dx : Int := ((b0 <<< 8) + b1 : Nat)
      let dy : Int := ((b2 <<< 8) + b3 : Nat)
      .ok ((if flagLow &&& 1 = 0 then -dx else dx),
        (if flagLow &&& 2 = 0 then -dy else dy), { gs with pos := p + 4 })

structure EncodedTriplets where
  flagsOut : List Nat
  xOut : List Nat
  yOut : List Nat
  xMin : Int
  yMin : Int
  xMax : Int
  yMax : Int
  deriving Repr

/-- Loop state of `encodeTripletsToScratch`; `flagsRev` holds the emitted
TrueType flag bytes most-recent-first so the repeat bit can be ORed into the
last one. -/
structure TripState where
  fs : ByteStream
  gs : ByteStream
  i : Nat
  x : Int
  y : Int
  xMin : Int
  yMin : Int
  xMax : Int
  yMax : Int
  lastFlag : Int
  repeatCount : Nat
  flagsRev : List Nat
  xOut : List Nat
  yOut : List Nat

def tripletLoop (hasOverlapBit : Bool) :
    Nat → TripState → Except DecodeErr (EncodedTriplets × ByteStream × ByteStream)
  | 0, ts =>
    .ok (⟨(if 0 < ts.repeatCount then ts.repeatCount :: ts.flagsRev
        else ts.flagsRev).reverse, ts.xOut, ts.yOut,
      ts.xMin, ts.yMin, ts.xMax, ts.yMax⟩, ts.fs, ts.gs)
  | n + 1, ts =>
    match bsReadU8 ts.fs with
    | .error e => .error e
    | .ok (flag, fs1) =>
      match readTripletDelta flag ts.gs with
      | .error e => .error e
      | .ok (dx, dy, gs1) =>
        let x1 := ts.x + dx
        let y1 := ts.y + dy
        let xMin1 := if ts.i = 0 then x1 else if x1 < ts.xMin then x1 else ts.xMin
        let xMax1 := if ts.i = 0 then x1 else if x1 > ts.xMax then x1 else ts.xMax
        let yMin1 := if ts.i = 0 then y1 else if y1 < ts.yMin then y1 else ts.yMin
        let yMax1 := if ts.i = 0 then y1 else if y1 > ts.yMax then y1 else ts.yMax
        let onCurve := decide (flag &&& 128 = 0)
        let f0 : Nat := (if onCurve then 1 else 0) |||
          (if hasOverlapBit ∧ ts.i = 0 then 64 else 0)
        let xr : Nat × List Nat :=
          if dx = 0 then (f0 ||| 16, ts.xOut)
          else if -255 ≤ dx ∧ dx ≤ 255 then
            (f0 ||| 2 ||| (if dx > 0 then 16 else 0),
             ts.xOut ++ [(if dx > 0 then dx else -dx).toNat])
          else (f0, ts.xOut ++ [toUint8 (Int.fdiv dx 256), toUint8 dx])
        let yr : Nat × List Nat :=
          if dy = 0 then (xr.1 ||| 32, ts.yOut)
          else if -255 ≤ dy ∧ dy ≤ 255 then
            (xr.1 ||| 4 ||| (if dy > 0 then 32 else 0),
             ts.yOut ++ [(if dy > 0 then dy else -dy).toNat])
          else (xr.1, ts.yOut ++ [toUint8 (Int.fdiv dy 256), toUint8 dy])
        let outFlag := yr.1
        if (outFlag : Int) = ts.lastFlag ∧ ts.repeatCount < 255 then
          tripletLoop hasOverlapBit n
            { ts with
              fs := fs1, gs := gs1, i := ts.i + 1, x := x1, y := y1,
              xMin := xMin1, yMin := yMin1, xMax := xMax1, yMax := yMax1,
              repeatCount := ts.repeatCount + 1,
              flagsRev := (match ts.flagsRev with
                | [] => []
                | h :: t => (h ||| 8) :: t),
              xOut := xr.2, yOut := yr.2 }
        else
          tripletLoop hasOverlapBit n
            { ts with
              fs := fs1, gs := gs1, i := ts.i + 1, x := x1, y := y1,
              xMin := xMin1, yMin := yMin1, xMax := xMax1, yMax := yMax1,
              lastFlag := (outFlag : Int), repeatCount := 0,
              flagsRev := outFlag ::
                (if 0 < ts.repeatCount then ts.repeatCount :: ts.flagsRev
                 else ts.flagsRev),
              xOut := xr.2, yOut := yr.2 }

def encodeTripletsToScratch (fs gs : ByteStream) (nPoints : Nat)
    (hasOverlapBit : Bool) :
    Except DecodeErr (EncodedTriplets × ByteStream × ByteStream) :=
  if nPoints = 0 then .ok (⟨[], [], [], 0, 0, 0, 0⟩, fs, gs)
  else tripletLoop hasOverlapBit nPoints
    ⟨fs, gs, 0, 0, 0, 0, 0, 0, 0, -1, 0, [], [], []⟩

/-- `(bitmap[g >> 3] & (0x80 >> (g & 7))) !== 0`. -/
def bitmapBit (bitmap : List Nat) (g : Nat) : Bool :=
  decide (byteAt bitmap (g / 8) &&& (128 >>> (g % 8)) ≠ 0)

/-- `(n + 3) & ~3` on a possibly negative JS number: floor to a multiple
of 4. -/
def pad4i (n : Int) : Int := 4 * Int.fdiv (n + 3) 4

/-- `ensureCapacity`: grow the output to `(glyfOffset + needed) * 2` bytes
(zero-filled, old content copied) when the write would not fit. -/
def ensureCapacity (buf : List Nat) (glyfOffset needed : Int) : List Nat :=
  if glyfOffset + needed > (buf.length : Int) then
    buf ++ List.replicate (((glyfOffset + needed) * 2).toNat - buf.length) 0
  else buf

/-- Byte-wise store into the output buffer: an index outside `[0, length)`
is silently dropped, as for a JS typed array. -/
def writeBytesAt : List Nat → Int → List Nat → List Nat
  | buf, _, [] => buf
  | buf, off, b :: rest =>
    writeBytesAt
      (if 0 ≤ off ∧ off < (buf.length : Int) then buf.set off.toNat b else buf)
      (off + 1) rest

/-- The mutable state of the `reconstructGlyf` glyph loop: the seven
substreams, the output buffer, the write cursor (`glyfOffset`, a JS number
that the code never range-checks), the `Uint32Array` loca values recorded so
far, and `fontInfo.xMins`. -/
structure GlyfState where
  nContourS : ByteStream
  nPointsS : ByteStream
  flagS : ByteStream
  glyphS : ByteStream
  compositeS : ByteStream
  bboxS : ByteStream
  instructionS : ByteStream
  glyfBuf : List Nat
  glyfOffset : Int
  locaValues : List Nat
  xMins : List Int
  deriving Repr

/-- One iteration of the glyph loop of `reconstructGlyf` (after the
`locaValues[glyphId] = glyfOffset` store, which `glyfLoop` performs). -/
def glyphStep (bboxBitmap : List Nat) (overlapBitmap : Option (List Nat))
    (g : Nat) (st : GlyfState) : Except DecodeErr GlyfState :=
  match bsReadS16 st.nContourS with
  | .error e => .error e
  | .ok (nContours, ncS) =>
    let haveBbox := bitmapBit bboxBitmap g
    if nContours = 0 then
      if haveBbox then .error (.emptyGlyphHasBbox g)
      else .ok { st with nContourS := ncS }
    else if nContours = -1 then
      if !haveBbox then .error (.compositeMissingBbox g)
      else
        match readCompositeGlyph st.compositeS with
        | .error e => .error e
        | .ok (compositeData, haveInstructions, compS) =>
          match ((if haveInstructions then bsRead255UShort st.glyphS
              else .ok (0, st.glyphS)) :
                Except DecodeErr (Nat × ByteStream)) with
          | .error e => .error e
          | .ok (instructionSize, glS) =>
            let glyphSize : Int := 10 + compositeData.length +
              (if haveInstructions then 2 + instructionSize else 0)
            let buf := ensureCapacity st.glyfBuf st.glyfOffset glyphSize
            match fsReadBytes st.bboxS 8 with
            | .error e => .error e
            | .ok (bbox, bbS) =>
              match ((if haveInstructions then
                  match fsReadBytes st.instructionS instructionSize with
                  | .error e => .error e
                  | .ok (ins, isS) => .ok (u16Bytes instructionSize ++ ins, isS)
                else .ok ([], st.instructionS)) :
                  Except DecodeErr (List Nat × ByteStream)) with
              | .error e => .error e
              | .ok (instrBytes, isS) =>
                let bytes := s16Bytes (-1) ++ bbox ++ compositeData ++ instrBytes
                .ok
                  { st with
                    nContourS := ncS, compositeS := compS, glyphS := glS,
                    bboxS := bbS, instructionS := isS,
                    glyfBuf := writeBytesAt buf st.glyfOffset bytes,
                    glyfOffset := pad4i (st.glyfOffset + glyphSize),
                    xMins := st.xMins.set g (toInt16 (getS16 bbox 0)) }
    else
      match readContourEnds nContours.toNat st.nPointsS 0 (-1) [] with
      | .error e => .error e
      | .ok (totalPoints, contourEnds, npS) =>
        match encodeTripletsToScratch st.flagS st.glyphS totalPoints
            (bitmapBit (overlapBitmap.getD []) g) with
        | .error e => .error e
        | .ok (encoded, fS, glS) =>
          match bsRead255UShort glS with
          | .error e => .error e
          | .ok (instructionSize, glS2) =>
            let glyphSize : Int := 10 + 2 * nContours + 2 + instructionSize +
              encoded.flagsOut.length + encoded.xOut.length + encoded.yOut.length
            let buf := ensureCapacity st.glyfBuf st.glyfOffset glyphSize
            match ((if haveBbox then
                match fsReadBytes st.bboxS 8 with
                | .error e => .error e
                | .ok (bbox, bbS) => .ok (bbox, getS16 bbox 0, bbS)
              else .ok (s16Bytes encoded.xMin ++ s16Bytes encoded.yMin ++
                  s16Bytes encoded.xMax ++ s16Bytes encoded.yMax,
                encoded.xMin, st.bboxS)) :
                Except DecodeErr (List Nat × Int × ByteStream)) with
            | .error e => .error e
            | .ok (bboxBytes, xMinVal, bbS) =>
              match ((if 0 < instructionSize then
                  fsReadBytes st.instructionS instructionSize
                else .ok ([], st.instructionS)) :
                  Except DecodeErr (List Nat × ByteStream)) with
              | .error e => .error e
              | .ok (instrBytes, isS) =>
                let bytes := s16Bytes nContours ++ bboxBytes ++
                  contourEnds.flatMap u16Bytes ++ u16Bytes instructionSize ++
                  instrBytes ++ encoded.flagsOut ++ encoded.xOut ++ encoded.yOut
                .ok
                  { st with
                    nContourS := ncS, nPointsS := npS, flagS := fS,
                    glyphS := glS2, bboxS := bbS, instructionS := isS,
                    glyfBuf := writeBytesAt buf st.glyfOffset bytes,
                    glyfOffset := pad4i (st.glyfOffset + glyphSize),
                    xMins := st.xMins.set g (toInt16 xMinVal) }

/-- The glyph loop: record `locaValues[g] = glyfOffset` (a `Uint32Array`
store), run the glyph, and finally record `locaValues[numGlyphs]`. -/
def glyfLoop (bboxBitmap : List Nat) (overlapBitmap : Option (List Nat)) :
    Nat → Nat → GlyfState → Except DecodeErr GlyfState
  | 0, _, st =>
    .ok { st with locaValues := st.locaValues ++ [toUint32 st.glyfOffset] }
  | n + 1, g, st =>
    let st1 :=
      { st with locaValues := st.locaValues ++ [toUint32 st.glyfOffset] }
    match glyphStep bboxBitmap overlapBitmap g st1 with
    | .error e => .error e
    | .ok st2 => glyfLoop bboxBitmap overlapBitmap n (g + 1) st2

/-- `loca` serialization: u32 big-endian entries for `indexFormat != 0`,
else `setUint16(i * 2, locaValues[i] >> 1)`. -/
def serializeLoca (locaValues : List Nat) (indexFormat : Nat) : List Nat :=
  if indexFormat ≠ 0 then locaValues.flatMap u32Bytes
  else locaValues.flatMap
    (fun v => u16Bytes ((Int.fdiv (toInt32 v) 2 % 65536).toNat))

structure GlyfResult where
  glyfData : List Nat
  locaData : List Nat
  locaValues : List Nat
  xMins : List Int
  deriving Repr

/-- `reconstructGlyf`: header, substream carving, bbox bitmap, glyph loop,
final loca entry, loca serialization, and the `subarray(0, glyfOffset)`
view of the output (negative end counts from the buffer end, and the
result is clamped to the buffer). -/
def reconstructGlyf (data : List Nat) (srcOffset transformLength
    origLength : Nat) : Except DecodeErr GlyfResult :=
  let hs := makeByteStream data srcOffset transformLength
  match bsReadU16 hs with
  | .error e => .error e
  | .ok (_, hs) =>
  match bsReadU16 hs with
  | .error e => .error e
  | .ok (optionFlags, hs) =>
  match bsReadU16 hs with
  | .error e => .error e
  | .ok (numGlyphs, hs) =>
  match bsReadU16 hs with
  | .error e => .error e
  | .ok (indexFormat, hs) =>
  match fsReadU32 hs with
  | .error e => .error e
  | .ok (nContourStreamSize, hs) =>
  match fsReadU32 hs with
  | .error e => .error e
  | .ok (nPointsStreamSize, hs) =>
  match fsReadU32 hs with
  | .error e => .error e
  | .ok (flagStreamSize, hs) =>
  match fsReadU32 hs with
  | .error e => .error e
  | .ok (glyphStreamSize, hs) =>
  match fsReadU32 hs with
  | .error e => .error e
  | .ok (compositeStreamSize, hs) =>
  match fsReadU32 hs with
  | .error e => .error e
  | .ok (bboxStreamSize, hs) =>
  match fsReadU32 hs with
  | .error e => .error e
  | .ok (instructionStreamSize, hs) =>
    let o0 := hs.pos
    let nContourS := makeByteStream data o0 nContourStreamSize
    let o1 := o0 + nContourStreamSize
    let nPointsS := makeByteStream data o1 nPointsStreamSize
    let o2 := o1 + nPointsStreamSize
    let flagS := makeByteStream data o2 flagStreamSize
    let o3 := o2 + flagStreamSize
    let glyphS := makeByteStream data o3 glyphStreamSize
    let o4 := o3 + glyphStreamSize
    let compositeS := makeByteStream data o4 compositeStreamSize
    let o5 := o4 + compositeStreamSize
    let bboxS0 := makeByteStream data o5 bboxStreamSize
    let o6 := o5 + bboxStreamSize
    let instructionS := makeByteStream data o6 instructionStreamSize
    let overlapBitmap :=
      if optionFlags &&& 1 ≠ 0 then
        some ((data.drop (o6 + instructionStreamSize)).take ((numGlyphs + 7) / 8))
      else none
    let bboxBitmapLength := ((numGlyphs + 31) / 32) * 4
    match fsReadBytes bboxS0 bboxBitmapLength with
    | .error e => .error e
    | .ok (bboxBitmap, bboxS) =>
      let st0 : GlyfState := ⟨nContourS, nPointsS, flagS, glyphS, compositeS,
        bboxS, instructionS, List.replicate (origLength * 2) 0, 0, [],
        List.replicate numGlyphs 0⟩
      match glyfLoop bboxBitmap overlapBitmap numGlyphs 0 st0 with
      | .error e => .error e
      | .ok st =>
        let locaData := serializeLoca st.locaValues indexFormat
        let e : Int := if st.glyfOffset < 0 then
            max ((st.glyfBuf.length : Int) + st.glyfOffset) 0
          else min st.glyfOffset (st.glyfBuf.length : Int)
        .ok ⟨st.glyfBuf.take e.toNat, locaData, st.locaValues, st.xMins⟩

/-- C5: `reconstructGlyf` validates the bbox bitmap bit against the glyph
kind exactly as the spec says: an empty glyph (`nContours = 0`) with its
bbox bit set aborts the decode; an empty glyph without the bit emits
nothing — the step leaves the output buffer, the write cursor (hence
`loca[g+1] = loca[g]`), and every other stream untouched; a composite glyph
(`nContours = -1`) without its bbox bit aborts the decode. -/
theorem glyf_bbox_bit_validation (bboxBitmap : List Nat)
    (overlapBitmap : Option (List Nat)) (g : Nat) (st : GlyfState)
    (s' : ByteStream) :
    (bsReadS16 st.nContourS = .ok (0, s') → bitmapBit bboxBitmap g = true →
      glyphStep bboxBitmap overlapBitmap g st =
        .error (.emptyGlyphHasBbox g)) ∧
    (bsReadS16 st.nContourS = .ok (0, s') → bitmapBit bboxBitmap g = false →
      glyphStep bboxBitmap overlapBitmap g st =
        .ok { st with nContourS := s' }) ∧
    (bsReadS16 st.nContourS = .ok (-1, s') → bitmapBit bboxBitmap g = false →
      glyphStep bboxBitmap overlapBitmap g st =
        .error (.compositeMissingBbox g)) := by
  refine ⟨?_, ?_, ?_⟩ <;> intro h hb <;>
    simp only [glyphStep, h, hb] <;> rfl

/-- Witness: a concrete empty glyph with the bbox bit set is rejected, one
without it passes through unchanged, and a composite glyph without the bit
is rejected. -/
theorem glyf_bbox_bit_validation_witness :
    glyphStep [128, 0, 0, 0] none 0
        ⟨⟨[0, 0], 0, 2⟩, ⟨[], 0, 0⟩, ⟨[], 0, 0⟩, ⟨[], 0, 0⟩, ⟨[], 0, 0⟩,
          ⟨[], 0, 0⟩, ⟨[], 0, 0⟩, [], 0, [], []⟩ =
      .error (.emptyGlyphHasBbox 0) ∧
    glyphStep [0, 0, 0, 0] none 0
        ⟨⟨[0, 0], 0, 2⟩, ⟨[], 0, 0⟩, ⟨[], 0, 0⟩, ⟨[], 0, 0⟩, ⟨[], 0, 0⟩,
          ⟨[], 0, 0⟩, ⟨[], 0, 0⟩, [], 0, [], []⟩ =
      .ok ⟨⟨[0, 0], 2, 2⟩, ⟨[], 0, 0⟩, ⟨[], 0, 0⟩, ⟨[], 0, 0⟩, ⟨[], 0, 0⟩,
          ⟨[], 0, 0⟩, ⟨[], 0, 0⟩, [], 0, [], []⟩ ∧
    glyphStep [0, 0, 0, 0] none 0
        ⟨⟨[255, 255], 0, 2⟩, ⟨[], 0, 0⟩, ⟨[], 0, 0⟩, ⟨[], 0, 0⟩, ⟨[], 0, 0⟩,
          ⟨[], 0, 0⟩, ⟨[], 0, 0⟩, [], 0, [], []⟩ =
      .error (.compositeMissingBbox 0) :=
  ⟨(glyf_bbox_bit_validation [128, 0, 0, 0] none 0 _ ⟨[0, 0], 2, 2⟩).1
      rfl rfl,
    (glyf_bbox_bit_validation [0, 0, 0, 0] none 0 _ ⟨[0, 0], 2, 2⟩).2.1
      rfl rfl,
    (glyf_bbox_bit_validation [0, 0, 0, 0] none 0 _ ⟨[255, 255], 2, 2⟩).2.2
      rfl rfl⟩

/-- A transformed glyf table holding one composite glyph whose reconstructed
size is 18 bytes: header (36 bytes: version 0, optionFlags 0, numGlyphs 1,
indexFormat 1; substream sizes 2/0/0/1/6/12/0), nContour stream `FF FF`
(-1), glyph stream `00` (instructionSize 0), composite stream
`01 00 00 00 00 00` (one component, WE_HAVE_INSTRUCTIONS, no further
components), bbox stream: bitmap `80 00 00 00` plus an 8-byte bbox. The
declared `origLength` 9 makes the initial output buffer 18 bytes. -/
def c9GlyfInput : List Nat :=
  [0, 0, 0, 0, 0, 1, 0, 1] ++
  [0, 0, 0, 2] ++ [0, 0, 0, 0] ++ [0, 0, 0, 0] ++ [0, 0, 0, 1] ++
  [0, 0, 0, 6] ++ [0, 0, 0, 12] ++ [0, 0, 0, 0] ++
  [255, 255] ++ [0] ++ [1, 0, 0, 0, 0, 0] ++ [128, 0, 0, 0] ++
  [0, 0, 0, 0, 0, 0, 0, 0]

/-- C9 (code bug): the loca invariant does not hold for every successful
`reconstructGlyf` run. On `c9GlyfInput` the run succeeds, records
`locaValues = [0, 20]` (the single 18-byte composite glyph is followed by
`glyfOffset = pad4(18) = 20`), yet the produced glyf table has only 18
bytes: the final `pad4` pushed the cursor past the allocated buffer
(`origLength * 2 = 18` bytes, never re-checked after the last glyph), and
`subarray(0, glyfOffset)` clamps to the buffer, so
`loca[numGlyphs] = 20 ≠ 18 = glyfData.length`, contradicting the claimed
`loca[numGlyphs] == byte length of the produced glyf table`. -/
theorem reconstructGlyf_loca_invariant_violated :
    (reconstructGlyf c9GlyfInput 0 57 9).map
        (fun r => (r.locaValues, r.glyfData.length)) =
      .ok ([0, 20], 18) ∧ (20 : Nat) ≠ 18 := by
  set_option maxRecDepth 4000 in
  exact ⟨rfl, by decide⟩

end Woff
